import Mathlib

/-! H5P Drag Text (`scripts/drag-text.js`): cloze parsing and the assignment model

A shallow embedding of the logic of `H5P.DragText`:

* the cloze scanner `handleBlanks` with its two clients
  `replaceSolutionsWithBlanks` and `getSolutionsFromQuestion`, and `parseSolution`;
* the assignment state held in the `draggables` / `droppables` arrays, with
  `moveDraggableToDroppable`, `getCurrentState`, `setH5PUserState`,
  `calculateScore`, `getScore`, `getMaxScore`, `isAllAnswersFilled` and
  `getXAPIResponse`;
* the blank branch of `addTaskTo` with `cleanAsterisk`, and the loop of
  `addDraggablesRandomly`.

JavaScript strings are sequences of code units; they are embedded as `List Char`
(one `Char` per code unit).  Indices are `Int`, with `-1` for "not found", as in
the source.  Object references into the two arrays are embedded as array indices.
-/

set_option autoImplicit false

namespace H5P

/-! ## JavaScript string primitives -/

/-- A JavaScript string, one `Char` per code unit. -/
abbrev JSString := List Char

/-- Scan for `c`, the head of the list standing at index `i`; `-1` when absent. -/
def indexOfAux (c : Char) : List Char → Nat → Int
  | [], _ => -1
  | x :: xs, i => if x = c then (i : Int) else indexOfAux c xs (i + 1)

/-- `str.indexOf(c, position)` for a one-character search string: the first index
`≥ position` holding `c`, or `-1`.  A negative `position` counts as `0`. -/
def indexOf (str : JSString) (c : Char) (position : Int) : Int :=
  indexOfAux c (str.drop position.toNat) position.toNat

/-- Resolve a relative index of `slice`: negative values count from the end, and
the result is clamped to `[0, len]`. -/
def relativeIndex (len : Nat) (i : Int) : Nat :=
  if i < 0 then (len + i).toNat else min i.toNat len

/-- `str.slice(start, end)`; `stop = none` is the one-argument form `str.slice(start)`. -/
def slice (str : JSString) (start : Int) (stop : Option Int) : JSString :=
  let a := relativeIndex str.length start
  let b := match stop with
    | none => str.length
    | some e => relativeIndex str.length e
  (str.take b).drop a

/-- `str.substring(start, end)`: both arguments are clamped to `[0, len]` and
swapped when `start > end`. -/
def substring (str : JSString) (start stop : Int) : JSString :=
  let a := min start.toNat str.length
  let b := min stop.toNat str.length
  (str.take (max a b)).drop (min a b)

/-- `str.split(sep)` for a one-character separator: the pieces between the
separators, in order; there is always at least one piece. -/
def split (sep : Char) : JSString → List JSString
  | [] => [[]]
  | c :: cs =>
    if c = sep then [] :: split sep cs
    else
      match split sep cs with
      | [] => [[c]]
      | piece :: pieces => (c :: piece) :: pieces

/-- `pieces.join(sep)`. -/
def join (sep : JSString) : List JSString → JSString
  | [] => []
  | [x] => x
  | x :: y :: rest => x ++ sep ++ join sep (y :: rest)

/-! ## `parseSolution` -/

/-- The object returned by `parseSolution`: `tip` is `none` for `undefined`. -/
structure Solution where
  tip : Option JSString
  solutions : List JSString
  deriving DecidableEq

/-- The first half of `parseSolution` (the `tipStart` branch): the pair
`(tip, solution)` of its two local variables. -/
def splitTip (solutionText : JSString) : Option JSString × JSString :=
  let tipStart := indexOf solutionText ':' 0
  if tipStart ≠ -1 then
    (some (slice solutionText (tipStart + 1) none), slice solutionText 0 (some tipStart))
  else
    (none, solutionText)

/-- `DragText.prototype.parseSolution`.  `trim` is `H5P.trim` and `decode` is the
entity decoding done through a `textarea` element; both belong to the host, so
they are parameters. -/
def parseSolution (trim decode : JSString → JSString) (solutionText : JSString) : Solution :=
  let (tip, solution) := splitTip solutionText
  let solutions := split '/' solution
  let solutions := solutions.map (fun s => decode (trim s))
  { tip := tip, solutions := solutions }

/-- Completion of a call: a thrown error message or the returned value. -/
abbrev Completion (α : Type) := Except String α

/-- A call `this.parseSolution(solutionText)` as a completion.  The body of
`parseSolution` has no `throw` statement, so the call always completes normally. -/
def parseSolutionCall (trim decode : JSString → JSString) (solutionText : JSString) :
    Completion Solution :=
  Except.ok (parseSolution trim decode solutionText)

/-! ## `handleBlanks` -/

/-- The variables of the `while` loop of `handleBlanks`.  `clozeEnd = none` is the
initial `undefined`; `acc` is whatever the handler closure mutates. -/
structure BlankScan (σ : Type) where
  question : JSString
  clozeStart : Int
  clozeEnd : Option Int
  acc : σ

/-- The loop condition `clozeStart !== -1 && clozeEnd !== -1`. -/
def BlankScan.continues {σ : Type} (s : BlankScan σ) : Bool :=
  decide (s.clozeStart ≠ -1) && decide (s.clozeEnd ≠ some (-1))

/-- One pass through the body of the `while` loop of `handleBlanks`. -/
def handleBlanksBody {σ : Type} (trim decode : JSString → JSString)
    (handler : σ → Solution → JSString × σ) (s : BlankScan σ) : BlankScan σ :=
  let clozeStart := s.clozeStart + 1
  let clozeEnd := indexOf s.question '*' clozeStart
  if clozeEnd = -1 then
    -- `continue`: no end
    { s with clozeStart := clozeStart, clozeEnd := some clozeEnd }
  else
    let clozeContent := substring s.question clozeStart clozeEnd
    if clozeContent.length ≠ 0 then
      let (replacer, acc) := handler s.acc (parseSolution trim decode clozeContent)
      let clozeEnd := clozeEnd + 1
      let question := slice s.question 0 (some (clozeStart - 1)) ++ replacer
        ++ slice s.question clozeEnd none
      let clozeEnd := clozeEnd - (clozeEnd - clozeStart - replacer.length)
      { question := question, clozeStart := indexOf question '*' clozeEnd,
        clozeEnd := some clozeEnd, acc := acc }
    else
      let replacer : JSString := []
      let clozeStart := clozeStart + 1
      let question := slice s.question 0 (some (clozeStart - 1)) ++ replacer
        ++ slice s.question clozeEnd none
      let clozeEnd := clozeEnd - (clozeEnd - clozeStart - replacer.length)
      { question := question, clozeStart := indexOf question '*' clozeEnd,
        clozeEnd := some clozeEnd, acc := s.acc }

/-- The `while` loop of `handleBlanks`, run for at most `fuel` tests of its
condition; `none` when the fuel runs out before the loop exits. -/
def handleBlanksLoop {σ : Type} (trim decode : JSString → JSString)
    (handler : σ → Solution → JSString × σ) : Nat → BlankScan σ → Option (JSString × σ)
  | 0, _ => none
  | fuel + 1, s =>
    if s.continues then
      handleBlanksLoop trim decode handler fuel (handleBlanksBody trim decode handler s)
    else
      some (s.question, s.acc)

/-- `DragText.prototype.handleBlanks`.  The handler is a closure: it receives the
parsed solution and the state it has captured, and returns the replacer together
with the new captured state. -/
def handleBlanks {σ : Type} (trim decode : JSString → JSString) (fuel : Nat)
    (question : JSString) (handler : σ → Solution → JSString × σ) (acc : σ) :
    Option (JSString × σ) :=
  handleBlanksLoop trim decode handler fuel
    { question := question, clozeStart := indexOf question '*' 0, clozeEnd := none, acc := acc }

/-- The placeholder written for every blank. -/
def blankPlaceholder : JSString := "__________".toList

/-- `DragText.prototype.replaceSolutionsWithBlanks`. -/
def replaceSolutionsWithBlanks (trim decode : JSString → JSString) (fuel : Nat)
    (question : JSString) : Option JSString :=
  (handleBlanks trim decode fuel question
    (fun (_ : Unit) (_ : Solution) => (blankPlaceholder, ())) ()).map Prod.fst

/-- `DragText.prototype.getSolutionsFromQuestion`; `solutions[0]` of an empty
array is `undefined`, which `join` prints as the empty string. -/
def getSolutionsFromQuestion (trim decode : JSString → JSString) (fuel : Nat)
    (question : JSString) : Option JSString :=
  (handleBlanks trim decode fuel question
    (fun (solutions : List JSString) (solution : Solution) =>
      (blankPlaceholder, solutions ++ [solution.solutions.headD []])) []).map
    (fun r => join "[,]".toList r.2)

/-- ECMAScript `\s`: white space and line terminators. -/
def isWhiteSpace (c : Char) : Bool :=
  let n := c.toNat
  n = 0x09 || n = 0x0A || n = 0x0B || n = 0x0C || n = 0x0D || n = 0x20 || n = 0xA0
    || n = 0x1680 || (0x2000 ≤ n && n ≤ 0x200A) || n = 0x2028 || n = 0x2029
    || n = 0x202F || n = 0x205F || n = 0x3000 || n = 0xFEFF

/-- The host's `H5P.trim`, `value.replace(/^\s+|\s+$/g, '')`: the instance of the
`trim` parameter used in the concrete examples. -/
def trimWhiteSpace (value : JSString) : JSString :=
  ((value.dropWhile isWhiteSpace).reverse.dropWhile isWhiteSpace).reverse

/-! ## The assignment state -/

/-- An `H5P.TextDraggable` as `drag-text.js` reads it: its `text` and the
droppable it sits in (`insideDropzone`, `none` for `null`), a reference embedded
as an index into `droppables`. -/
structure TextDraggable where
  text : JSString
  insideDropzone : Option Nat
  deriving DecidableEq

/-- An `H5P.TextDroppable`: the `answer` and `tip` given to `createDroppable` and
the draggable it contains (`none` for `null`), a reference embedded as an index
into `draggables`. -/
structure TextDroppable where
  text : JSString
  tip : Option JSString
  containedDraggable : Option Nat
  deriving DecidableEq

/-- The part `params.behaviour` of the configuration. -/
structure Behaviour where
  enableRetry : Bool
  enableSolutionsButton : Bool
  instantFeedback : Bool
  deriving DecidableEq

/-- The number a value converts to where the code compares it with an integer or
hands it to `isNaN`: an integer, a finite number that is not an integer (given by
its floor, which decides every comparison with an integer), an infinity, or `NaN`. -/
inductive NumberKind where
  | integer (i : Int)
  | nonInteger (floor : Int)
  | infinite (negative : Bool)
  | nan
  deriving DecidableEq

/-- A value stored under `draggable` or `droppable` in a previous-state entry.  The
stored state is whatever the host hands over, so the value need not be an integer:
* `number i`: the integer `i`;
* `notNumeric`: a value for which `isNaN` holds and whose property key is no array
  index (`NaN`, `undefined`, a plain object, a string that is not numeric);
* `nonInteger f`: a finite number that is not an integer, with floor `f` (`1.5` is
  `nonInteger 1`);
* `infinity negative`: `Infinity` or `-Infinity`;
* `null`, `boolean b`: `null`, `true`, `false`;
* `string text value`: the string `text` (or an array that converts to it), given
  with the number the string converts to, the conversion itself being left to the
  host (`"1"` is `string ['1'] (NumberKind.integer 1)`). -/
inductive IndexValue where
  | number (i : Int)
  | notNumeric
  | nonInteger (floor : Int)
  | infinity (negative : Bool)
  | null
  | boolean (b : Bool)
  | string (text : JSString) (value : NumberKind)
  deriving DecidableEq

/-- One entry `{draggable: …, droppable: …}` of the stored user state. -/
structure StateEntry where
  draggable : IndexValue
  droppable : IndexValue
  deriving DecidableEq

/-- The fields of a `DragText` instance that the assignment logic reads and writes.
`previousState = none` is `undefined`. -/
structure DragText where
  behaviour : Behaviour
  previousState : Option (List StateEntry)
  answered : Bool
  draggables : List TextDraggable
  droppables : List TextDroppable
  correctAnswers : Nat
  initShowShowSolutionButton : Bool
  initShowTryAgainButton : Bool
  deriving DecidableEq

/-- The droppable that draggable number `d` is inside, if any. -/
def insideOf (self : DragText) (d : Nat) : Option Nat :=
  (self.draggables[d]?).bind (fun x => x.insideDropzone)

/-- The draggable that droppable number `z` contains, if any. -/
def containedOf (self : DragText) (z : Nat) : Option Nat :=
  (self.droppables[z]?).bind (fun x => x.containedDraggable)

/-- Modelled from the spec: `TextDraggable.removeFromZone` (`draggable.js` is not
among the sources).  §4.3, `clear(draggableId)`: "removes draggableId from
whichever slot holds it, if any; no-op otherwise". -/
def removeFromZone (self : DragText) (draggable : Nat) : DragText :=
  match insideOf self draggable with
  | none => self
  | some dropZone =>
    { self with
      droppables := self.droppables.modify (fun z => { z with containedDraggable := none })
        dropZone
      draggables := self.draggables.modify (fun d => { d with insideDropzone := none })
        draggable }

/-- Modelled from the spec: `TextDroppable.setDraggable` (`droppable.js` is not
among the sources).  §4.3, `place`: "set the target slot to draggableId, evicting
(returning) whatever draggable previously occupied that slot, if any". -/
def setDraggable (self : DragText) (droppable draggable : Nat) : DragText :=
  let self := match containedOf self droppable with
    | none => self
    | some previous => removeFromZone self previous
  { self with
    droppables := self.droppables.modify (fun z => { z with containedDraggable := some draggable })
      droppable
    draggables := self.draggables.modify (fun d => { d with insideDropzone := some droppable })
      draggable }

/-- Modelled from the spec: `TextDroppable.appendInsideDroppableTo` (`droppable.js`
is not among the sources) moves the element of the contained draggable to the
given container.  §1 leaves DOM construction out of the core: the assignment
state is unchanged. -/
def appendInsideDroppableTo (self : DragText) (_droppable : Nat) : DragText := self

/-- Modelled from the spec: `TextDraggable.appendDraggableTo` (`draggable.js` is not
among the sources) moves the element of the draggable into the given dropzone; the
assignment state is unchanged. -/
def appendDraggableTo (self : DragText) (_draggable _droppable : Nat) : DragText := self

/-- Modelled from the spec: `TextDraggable.revertDraggableTo` (`draggable.js` is not
among the sources) moves the element of the draggable back to the pool container;
the assignment state is unchanged. -/
def revertDraggableTo (self : DragText) (_draggable : Nat) : DragText := self

/-- `DragText.prototype.moveDraggableToDroppable`; `droppable = none` is `null`. -/
def moveDraggableToDroppable (self : DragText) (draggable : Nat) (droppable : Option Nat) :
    DragText :=
  let self := removeFromZone self draggable
  match droppable with
  | some dz =>
    let self := { self with answered := true }
    let self := appendInsideDroppableTo self dz
    let self := setDraggable self dz draggable
    appendDraggableTo self draggable dz
  | none => revertDraggableTo self draggable

/-- `DragText.prototype.isAllAnswersFilled`. -/
def isAllAnswersFilled (self : DragText) : Bool :=
  self.draggables.foldl
    (fun allFilled entry => if entry.insideDropzone = none then false else allFilled) true

/-- `DragText.prototype.calculateScore`.  `isCorrect` is `TextDroppable.isCorrect`
(`droppable.js` is not among the sources): a query on the droppable and on the
draggable it contains, without side effects (§4.4). -/
def calculateScore (isCorrect : List TextDraggable → TextDroppable → Bool) (self : DragText) :
    DragText :=
  let self := { self with correctAnswers := 0 }
  self.droppables.foldl
    (fun self entry =>
      if isCorrect self.draggables entry then
        { self with correctAnswers := self.correctAnswers + 1 }
      else self)
    self

/-- `DragText.prototype.getScore`: the returned score and the instance afterwards. -/
def getScore (isCorrect : List TextDraggable → TextDroppable → Bool) (self : DragText) :
    Nat × DragText :=
  let self := calculateScore isCorrect self
  (self.correctAnswers, self)

/-- `DragText.prototype.getMaxScore`. -/
def getMaxScore (self : DragText) : Nat := self.droppables.length

/-- `DragText.prototype.showEvaluation`, without the feedback texts and buttons:
the score is calculated, and once more by `addResponseToXAPI` unless `skipXapi`.
Returns whether the maximum score was achieved. -/
def showEvaluation (isCorrect : List TextDraggable → TextDroppable → Bool) (skipXapi : Bool)
    (self : DragText) : Bool × DragText :=
  let self := calculateScore isCorrect self
  let score := self.correctAnswers
  let maxScore := self.droppables.length
  let self := if !skipXapi then (getScore isCorrect self).2 else self
  (score == maxScore, self)

/-- `array.indexOf(obj)` for an object reference embedded as an index: the index
itself when it is an element of the array, `-1` otherwise. -/
def arrayIndexOf {α : Type} (array : List α) (ref : Nat) : Int :=
  if ref < array.length then (ref : Int) else -1

/-- The `forEach` of `getCurrentState` over the draggables from index
`draggableIndex` on. -/
def getCurrentStateFrom (self : DragText) : Nat → List TextDraggable → List StateEntry
  | _, [] => []
  | draggableIndex, draggable :: rest =>
    match draggable.insideDropzone with
    | none => getCurrentStateFrom self (draggableIndex + 1) rest
    | some dz =>
      { draggable := IndexValue.number draggableIndex,
        droppable := IndexValue.number (arrayIndexOf self.droppables dz) }
        :: getCurrentStateFrom self (draggableIndex + 1) rest

/-- `DragText.prototype.getCurrentState` (on an initialised instance, whose
`draggables` array exists). -/
def getCurrentState (self : DragText) : List StateEntry :=
  getCurrentStateFrom self 0 self.draggables

/-- The conversion of an index value to a number, which `isNaN` and the comparisons
`>=` and `<` with a number apply to their operand: `null` is `0`, `true` is `1`,
`false` is `0`. -/
def IndexValue.toNumber : IndexValue → NumberKind
  | IndexValue.number i => NumberKind.integer i
  | IndexValue.notNumeric => NumberKind.nan
  | IndexValue.nonInteger floor => NumberKind.nonInteger floor
  | IndexValue.infinity negative => NumberKind.infinite negative
  | IndexValue.null => NumberKind.integer 0
  | IndexValue.boolean b => NumberKind.integer (if b then 1 else 0)
  | IndexValue.string _ value => value

/-- The global `isNaN` on an index value. -/
def isNaN (v : IndexValue) : Bool :=
  match v.toNumber with
  | NumberKind.nan => true
  | _ => false

/-- The comparison `value >= bound` with an integer bound; a comparison with `NaN`
is false. -/
def IndexValue.ge (v : IndexValue) (bound : Int) : Bool :=
  match v.toNumber with
  | NumberKind.integer i => decide (bound ≤ i)
  | NumberKind.nonInteger floor => decide (bound ≤ floor)
  | NumberKind.infinite negative => !negative
  | NumberKind.nan => false

/-- The comparison `value < bound` with an integer bound; a comparison with `NaN`
is false. -/
def IndexValue.lt (v : IndexValue) (bound : Int) : Bool :=
  match v.toNumber with
  | NumberKind.integer i => decide (i < bound)
  | NumberKind.nonInteger floor => decide (floor < bound)
  | NumberKind.infinite negative => negative
  | NumberKind.nan => false

/-- The value of a string of decimal digits. -/
def digitsValue (digits : JSString) : Nat :=
  digits.foldl (fun acc c => acc * 10 + (c.toNat - '0'.toNat)) 0

/-- The array index a property key names, if it names one: the key is a non-empty
string of decimal digits without a leading zero, or is `"0"`. -/
def canonicalIndex (key : JSString) : Option Nat :=
  if key ≠ [] ∧ key.all Char.isDigit = true ∧ (key.head? ≠ some '0' ∨ key = ['0']) then
    some (digitsValue key)
  else none

/-- The array index that `array[value]` reads or writes, if the property key of the
value names one.  The key of a non-negative integer is its decimal form; the keys
`"-1"`, `"1.5"`, `"Infinity"`, `"NaN"`, `"undefined"`, `"null"`, `"true"` and
`"false"` name no element; the key of a string is the string itself.  The bound
`2 ^ 32 - 1` on an array index, which the length of no array reaches, is left out. -/
def IndexValue.propertyIndex : IndexValue → Option Nat
  | IndexValue.number i => if i < 0 then none else some i.toNat
  | IndexValue.string text _ => canonicalIndex text
  | _ => none

/-- The array index an index value denotes in `array[value]` (`0` when it denotes
none). -/
def IndexValue.toIndex (v : IndexValue) : Nat :=
  v.propertyIndex.getD 0

/-- `array[value]` on an array of objects, which are referred to by their index:
the index of the element, or `none` for `undefined`. -/
def arrayLookup {α : Type} (array : List α) (v : IndexValue) : Option Nat :=
  match v.propertyIndex with
  | none => none
  | some k => if k < array.length then some k else none

/-- The call `self.moveDraggableToDroppable(moveDraggable, moveToDroppable)` with
arguments read from the two arrays, either of which may be `undefined` (`none`).
With an `undefined` draggable the first statement, `draggable.removeFromZone()`,
throws a `TypeError`.  With an `undefined` droppable the draggable is removed from
its zone, `droppable !== null` holds, `answered` is set, and the call
`droppable.appendInsideDroppableTo(…)` throws a `TypeError`. -/
def moveDraggableToDroppableCall (self : DragText) (draggable droppable : Option Nat) :
    DragText × Completion Unit :=
  match draggable, droppable with
  | none, _ =>
    (self, Except.error "TypeError: cannot read property removeFromZone of undefined")
  | some d, none =>
    let self := removeFromZone self d
    let self := { self with answered := true }
    (self, Except.error "TypeError: cannot read property appendInsideDroppableTo of undefined")
  | some d, some dz => (moveDraggableToDroppable self d (some dz), Except.ok ())

/-- The message of the error thrown by `setH5PUserState`. -/
def invalidStateMessage : String := "Stored user state is invalid"

/-- The `forEach` over `previousState` in `setH5PUserState`: the instance as the
loop leaves it, and whether it completed or threw.  The two array elements are
looked up after the test and may be `undefined`, in which case the call of
`moveDraggableToDroppable` throws.  With `instantFeedback`, the calls `addFeedback`
and `disableDropzoneAndContainedDraggable`, reached after that call has returned,
only restyle the elements. -/
def setH5PUserStateEntries : DragText → List StateEntry → DragText × Completion Unit
  | self, [] => (self, Except.ok ())
  | self, draggedDraggableIndexes :: rest =>
    let draggableIndexIsInvalid := isNaN draggedDraggableIndexes.draggable ||
      draggedDraggableIndexes.draggable.ge self.draggables.length ||
      draggedDraggableIndexes.draggable.lt 0
    let droppableIndexIsInvalid := isNaN draggedDraggableIndexes.droppable ||
      draggedDraggableIndexes.droppable.ge self.droppables.length ||
      draggedDraggableIndexes.droppable.lt 0
    if draggableIndexIsInvalid || droppableIndexIsInvalid then
      (self, Except.error invalidStateMessage)
    else
      let moveDraggable := arrayLookup self.draggables draggedDraggableIndexes.draggable
      let moveToDroppable := arrayLookup self.droppables draggedDraggableIndexes.droppable
      match moveDraggableToDroppableCall self moveDraggable moveToDroppable with
      | (self, Except.error e) => (self, Except.error e)
      | (self, Except.ok ()) => setH5PUserStateEntries self rest

/-- `DragText.prototype.setH5PUserState`: the instance afterwards, and whether the
call completed or threw. -/
def setH5PUserState (isCorrect : List TextDraggable → TextDroppable → Bool) (self : DragText) :
    DragText × Completion Unit :=
  match self.previousState with
  | none => (self, Except.ok ())
  | some previousState =>
    match setH5PUserStateEntries self previousState with
    | (self, Except.error e) => (self, Except.error e)
    | (self, Except.ok ()) =>
      if self.behaviour.instantFeedback then
        if isAllAnswersFilled self then
          let (maxScoreAchieved, self) := showEvaluation isCorrect false self
          if !maxScoreAchieved then
            let self := if self.behaviour.enableSolutionsButton then
              { self with initShowShowSolutionButton := true } else self
            let self := if self.behaviour.enableRetry then
              { self with initShowTryAgainButton := true } else self
            (self, Except.ok ())
          else (self, Except.ok ())
        else (self, Except.ok ())
      else (self, Except.ok ())

/-- The instance as the constructor leaves it after `addTaskTo`, before
`setH5PUserState`: one draggable and one droppable per blank, every draggable in
the pool, every droppable empty, `answered = false`. -/
def fresh (behaviour : Behaviour) (previousState : Option (List StateEntry))
    (blanks : List (JSString × Option JSString)) : DragText :=
  { behaviour := behaviour
    previousState := previousState
    answered := false
    draggables := blanks.map (fun b => { text := b.1, insideDropzone := none })
    droppables := blanks.map (fun b => { text := b.1, tip := b.2, containedDraggable := none })
    correctAnswers := 0
    initShowShowSolutionButton := false
    initShowTryAgainButton := false }

/-- A user action on the assignment: `(d, some z)` drops draggable `d` on
droppable `z`, `(d, none)` sends draggable `d` back to the pool. -/
abbrev Move := Nat × Option Nat

/-- A sequence of `moveDraggableToDroppable` calls, in order. -/
def runMoves (self : DragText) (moves : List Move) : DragText :=
  moves.foldl (fun s m => moveDraggableToDroppable s m.1 m.2) self

/-! ## Notions the claims are stated with -/

/-- The two reference fields agree: draggable `d` is inside droppable `z` exactly
when droppable `z` contains draggable `d`. -/
def Consistent (self : DragText) : Prop :=
  ∀ d z, insideOf self d = some z ↔ containedOf self z = some d

/-- A move names a draggable of the instance and, if it names a droppable, a
droppable of the instance. -/
def Move.InRange (self : DragText) (m : Move) : Prop :=
  m.1 < self.draggables.length ∧ ∀ z, m.2 = some z → z < self.droppables.length

/-- The value is a non-negative integer below `n`. -/
def ValidIndex (v : IndexValue) (n : Nat) : Prop :=
  ∃ k : Nat, v = IndexValue.number k ∧ k < n

/-- Both indices of the entry are valid for the instance. -/
def StateEntry.Valid (self : DragText) (e : StateEntry) : Prop :=
  ValidIndex e.draggable self.draggables.length ∧ ValidIndex e.droppable self.droppables.length

/-- The value is one that the test `isNaN(x) || x >= n || x < 0` is there to turn
away: it is not numeric (it converts to `NaN`), or it is negative, or it is at
least `n`. -/
def IndexValue.Rejected (v : IndexValue) (n : Nat) : Prop :=
  match v.toNumber with
  | NumberKind.nan => True
  | NumberKind.integer i => i < 0 ∨ (n : Int) ≤ i
  | NumberKind.nonInteger floor => floor < 0 ∨ (n : Int) ≤ floor
  | NumberKind.infinite _ => True

/-- One of the two indices of the entry is non-numeric, negative or out of range
for the instance. -/
def StateEntry.Rejected (self : DragText) (e : StateEntry) : Prop :=
  e.draggable.Rejected self.draggables.length ∨ e.droppable.Rejected self.droppables.length

/-- The value is an integer or is not numeric. -/
def IndexValue.IntegerOrNotNumeric (v : IndexValue) : Prop :=
  v = IndexValue.notNumeric ∨ ∃ i : Int, v = IndexValue.number i

/-- The move a valid entry stands for. -/
def StateEntry.toMove (e : StateEntry) : Move :=
  (e.draggable.toIndex, some e.droppable.toIndex)

/-- No draggable is assigned to two slots at once. -/
def NoDraggableInTwoSlots (self : DragText) : Prop :=
  ∀ d z₁ z₂, containedOf self z₁ = some d → containedOf self z₂ = some d → z₁ = z₂

/-- No slot holds two draggables. -/
def NoSlotHoldsTwo (self : DragText) : Prop :=
  ∀ z d₁ d₂, insideOf self d₁ = some z → insideOf self d₂ = some z → d₁ = d₂

/-- Three blanks, as the examples use them. -/
def threeBlanks : List (JSString × Option JSString) :=
  [("nice".toList, none), ("flexible".toList, none), ("wonderful".toList, some "tip".toList)]

/-- The behaviour settings the constructor takes by default. -/
def defaultBehaviour : Behaviour :=
  { enableRetry := true, enableSolutionsButton := true, instantFeedback := false }

/-- An example session on three blanks: draggable 0 is dropped on slot 1,
draggable 1 is dropped on the same slot, draggable 2 is dropped on slot 0 and
then sent back to the pool. -/
def exampleMoves : List Move := [(0, some 1), (1, some 1), (2, some 0), (2, none)]

/-- A stored state for three blanks with one entry, whose draggable index 5 is
out of range. -/
def outOfRangeState : List StateEntry :=
  [{ draggable := IndexValue.number 5, droppable := IndexValue.number 0 }]

/-- A stored state for three blanks with one entry, whose draggable index is the
number `1.5`. -/
def nonIntegerState : List StateEntry :=
  [{ draggable := IndexValue.nonInteger 1, droppable := IndexValue.number 0 }]

/-- A stored state for three blanks with one entry, whose droppable index is the
number `1.5`. -/
def nonIntegerDroppableState : List StateEntry :=
  [{ draggable := IndexValue.number 0, droppable := IndexValue.nonInteger 1 }]

/-- A stored state for three blanks whose first entry is valid and whose second
entry has the draggable index 5, out of range. -/
def validThenInvalidState : List StateEntry :=
  [{ draggable := IndexValue.number 0, droppable := IndexValue.number 0 },
   { draggable := IndexValue.number 5, droppable := IndexValue.number 0 }]

/-- An `isCorrect` that accepts nothing, for examples in which it is not consulted. -/
def neverCorrect : List TextDraggable → TextDroppable → Bool := fun _ _ => false

/-- The entry `getCurrentState` pushes for draggable number `d`, if any. -/
def entryOf (self : DragText) (d : Nat) : Option StateEntry :=
  (insideOf self d).map (fun z =>
    { draggable := IndexValue.number d,
      droppable := IndexValue.number (arrayIndexOf self.droppables z) })

/-- Both values are integers and the first is the smaller. -/
def IndexValue.Below (a b : IndexValue) : Prop :=
  ∃ i j : Int, a = IndexValue.number i ∧ b = IndexValue.number j ∧ i < j

/-- A session on three blanks that crosses the first two: draggable 0 is dropped on
slot 1 and draggable 1 on slot 0. -/
def crossMoves : List Move := [(0, some 1), (1, some 0)]

/-- The drop that restores draggable number `d` to the slot it is inside, if any. -/
def restoringMove (self : DragText) (d : Nat) : Option Move :=
  (insideOf self d).map (fun (z : Nat) => ((d, some z) : Move))

/-! ## The xAPI response -/

/-- `array[index]` for an index value: the element when the property key of the
index names an array index below the length, `undefined` (`none`) otherwise. -/
def arrayGet {α : Type} (array : List α) (v : IndexValue) : Option α :=
  match v.propertyIndex with
  | none => none
  | some k => array[k]?

/-- `answers[index] = value` on an array of strings.  An index whose property key
names no array index (a negative or non-numeric one) sets a property that is not
an element, and leaves the elements as they are; an index past the end grows the
array, the holes printing as empty strings. -/
def arrayAssign (answers : List JSString) (index : IndexValue) (value : JSString) :
    List JSString :=
  match index.propertyIndex with
  | none => answers
  | some k =>
    if k < answers.length then answers.set k value
    else answers ++ List.replicate (k - answers.length) [] ++ [value]

/-- The `forEach` of `getXAPIResponse` over the entries of the current state.
Reading `.text` of an `undefined` draggable throws a `TypeError`. -/
def getXAPIResponseEntries (self : DragText) :
    List JSString → List StateEntry → Completion (List JSString)
  | answers, [] => Except.ok answers
  | answers, stateObject :: rest =>
    match arrayGet self.draggables stateObject.draggable with
    | none => Except.error "TypeError: cannot read property text of undefined"
    | some draggable =>
      getXAPIResponseEntries self (arrayAssign answers stateObject.droppable draggable.text) rest

/-- `DragText.prototype.getXAPIResponse`. -/
def getXAPIResponse (self : DragText) : Completion JSString :=
  let answers : List JSString := List.replicate self.droppables.length []
  match getXAPIResponseEntries self answers (getCurrentState self) with
  | Except.error e => Except.error e
  | Except.ok answers => Except.ok (join "[,]".toList answers)

/-- The body of the `forEach` of `getXAPIResponse` when the draggable exists (the
text of an `undefined` draggable is never read then). -/
def assignEntry (self : DragText) (answers : List JSString) (stateObject : StateEntry) :
    List JSString :=
  arrayAssign answers stateObject.droppable
    (((arrayGet self.draggables stateObject.draggable).map (fun d => d.text)).getD [])

/-! ## `addTaskTo`: the answer and tip of a blank part -/

/-- `str.substr(start, length)`; `length = none` is the one-argument form.  A
negative `start` counts from the end. -/
def substr (str : JSString) (start : Int) (length : Option Int) : JSString :=
  let a := relativeIndex str.length start
  match length with
  | none => str.drop a
  | some n => (str.drop a).take n.toNat

/-- `DragText.prototype.startsWith`. -/
def startsWith (symbol str : JSString) : Bool :=
  decide (substr str 0 (some 1) = symbol)

/-- `DragText.prototype.endsWith`. -/
def endsWith (symbol str : JSString) : Bool :=
  decide (substr str (-1) none = symbol)

/-- `DragText.prototype.cleanAsterisk`. -/
def cleanAsterisk (str : JSString) : JSString :=
  let str := if startsWith ['*'] str then slice str 1 none else str
  let str := if endsWith ['*'] str then slice str 0 (some (-1)) else str
  str

/-- The blank branch of the callback of `addTaskTo`: the `answer` and the `tip`
(`none` for `undefined`) it hands to `createDraggable` and `createDroppable`. -/
def addTaskToBlank (part : JSString) : JSString × Option JSString :=
  let answer := cleanAsterisk part
  let answersAndTip := split ':' answer
  if answersAndTip.length > 0 then
    (answersAndTip.headD [], answersAndTip[1]?)
  else
    (answer, none)

/-! ## `addDraggablesRandomly` -/

/-- A non-negative JavaScript number, given by the decimal `mantissa × 10 ^ exponent`
that `Number::toString` prints for it: the shortest decimal that reads back as the
same number.  The double `2 ^ (-21)`, for one, is `476837158203125 × 10 ^ (-21)`.
Rounding to a double is not part of the model. -/
structure Decimal where
  mantissa : Nat
  exponent : Int
  deriving DecidableEq

/-- The product `x * n` of a number and an array length, computed exactly.  The
product of the double arithmetic is the exact one rounded to the nearest double:
the two are the same number when the exact product is a double, as it is for
`n = 1` and for `n` a power of two; where they differ, the digits printed for the
product are not those of this decimal. -/
def Decimal.times (x : Decimal) (n : Nat) : Decimal :=
  { mantissa := x.mantissa * n, exponent := x.exponent }

/-- The decimal digits of a natural number, most significant first. -/
def decimalDigits (n : Nat) : JSString := Nat.toDigits 10 n

/-- `Number::toString` (radix 10) of ECMAScript on a non-negative number, from the
digits of the decimal that stands for it (trailing zeros of the mantissa dropped):
with the `k` significant digits and the decimal point after the `n`-th of them,
plain digits when `k ≤ n ≤ 21`, a decimal point inside when `0 < n ≤ 21`, leading
zeros when `-6 < n ≤ 0`, and the exponent notation otherwise.  The digits are
those of the decimal as given; they are the digits ECMAScript prints when the
decimal is the shortest one that reads back as the number. -/
def numberToString (x : Decimal) : JSString :=
  if x.mantissa = 0 then ['0']
  else
    let all := decimalDigits x.mantissa
    let digits := (all.reverse.dropWhile (fun c => c = '0')).reverse
    let k : Int := digits.length
    let n : Int := all.length + x.exponent
    if k ≤ n ∧ n ≤ 21 then digits ++ List.replicate (n - k).toNat '0'
    else if 0 < n ∧ n ≤ 21 then digits.take n.toNat ++ ['.'] ++ digits.drop n.toNat
    else if -6 < n ∧ n ≤ 0 then ['0', '.'] ++ List.replicate (-n).toNat '0' ++ digits
    else
      let e := n - 1
      let sign := if e < 0 then '-' else '+'
      if k = 1 then digits ++ ['e', sign] ++ decimalDigits e.natAbs
      else digits.take 1 ++ ['.'] ++ digits.drop 1 ++ ['e', sign] ++ decimalDigits e.natAbs

/-- `parseInt(string, 10)` on the string its argument converts to: leading white
space and a sign are skipped, the longest run of decimal digits is read, and the
result is `NaN` when there is no digit. -/
def parseInt (inputString : JSString) : IndexValue :=
  let s := inputString.dropWhile isWhiteSpace
  let negative := decide (s.head? = some '-')
  let s := if s.head? = some '-' ∨ s.head? = some '+' then s.drop 1 else s
  let z := s.takeWhile Char.isDigit
  if z = [] then IndexValue.notNumeric
  else if negative then IndexValue.number (-(digitsValue z : Int))
  else IndexValue.number (digitsValue z)

/-- The `while` loop of `addDraggablesRandomly`, run for at most `fuel` tests of
its condition.  `random call` is what the `call`-th `Math.random()` returns,
`tempArray` holds references to draggables and `appended` lists the draggables
handed to `appendDraggableTo`, in order.  Calling `appendDraggableTo` on an
`undefined` element throws a `TypeError`. -/
def addDraggablesRandomlyLoop (random : Nat → Decimal) :
    Nat → Nat → List Nat → List Nat → Option (Completion (List Nat))
  | 0, _, _, _ => none
  | fuel + 1, call, tempArray, appended =>
    if tempArray.length ≥ 1 then
      let randIndex := parseInt (numberToString ((random call).times tempArray.length))
      match arrayGet tempArray randIndex with
      | none =>
        some (Except.error "TypeError: cannot read property appendDraggableTo of undefined")
      | some draggable =>
        addDraggablesRandomlyLoop random fuel (call + 1) (tempArray.eraseIdx randIndex.toIndex)
          (appended ++ [draggable])
    else
      some (Except.ok appended)

/-- `DragText.prototype.addDraggablesRandomly`: the draggables handed to
`appendDraggableTo`, in order, as indices into `this.draggables`; `tempArray`
starts as the copy `this.draggables.slice()`. -/
def addDraggablesRandomly (random : Nat → Decimal) (fuel : Nat) (self : DragText) :
    Option (Completion (List Nat)) :=
  addDraggablesRandomlyLoop random fuel 0 (List.range self.draggables.length) []

/-! ## Notions for the claims on the cloze scanner -/

/-- The text `*c₁*L₁ … *cₙ*Lₙ` of the blanks `(cᵢ, Lᵢ)`, each followed by its
literal segment. -/
def blanksText : List (JSString × JSString) → JSString
  | [] => []
  | (c, l) :: rest => '*' :: c ++ '*' :: l ++ blanksText rest

/-- Every `cᵢ` is non-empty and asterisk-free, every `Lᵢ` is asterisk-free, and
every `Lᵢ` but the last is non-empty. -/
def WellSeparated : List (JSString × JSString) → Prop
  | [] => True
  | (c, l) :: rest =>
    c ≠ [] ∧ '*' ∉ c ∧ '*' ∉ l ∧ (rest ≠ [] → l ≠ []) ∧ WellSeparated rest

/-- What the blanks `(cᵢ, Lᵢ)` become when the handler is run on
`parseSolution(c₁)`, …, `parseSolution(cₙ)` in that order: the text
`h(c₁) L₁ … h(cₙ) Lₙ` and the final captured state. -/
def handledBlanks {σ : Type} (trim decode : JSString → JSString)
    (handler : σ → Solution → JSString × σ) : σ → List (JSString × JSString) → JSString × σ
  | acc, [] => ([], acc)
  | acc, (c, l) :: rest =>
    let handled := handler acc (parseSolution trim decode c)
    let tail := handledBlanks trim decode handler handled.2 rest
    (handled.1 ++ l ++ tail.1, tail.2)

/-- A handler that returns `h(solution)` and records the solution it was called on. -/
def recording (h : Solution → JSString) : List Solution → Solution → JSString × List Solution :=
  fun log solution => (h solution, log ++ [solution])

/-- The search position of the scan: `clozeEnd`, or `0` before the first pass. -/
def BlankScan.searchPosition {σ : Type} (s : BlankScan σ) : Int :=
  s.clozeEnd.getD 0

/-- The loop of `handleBlanks` is at a delimiter: `clozeStart` is an index into
the question, at or after the search position. -/
def BlankScan.AtDelimiter {σ : Type} (s : BlankScan σ) : Prop :=
  0 ≤ s.searchPosition ∧ s.searchPosition ≤ s.clozeStart ∧
    s.clozeStart < (s.question.length : Int)

/-- A session on three blanks that fills every slot: draggable 0 goes to slot 2,
draggable 1 to slot 0 and draggable 2 to slot 1. -/
def fillingMoves : List Move := [(0, some 2), (1, some 0), (2, some 1)]

/-- The blanks of the example text `The *cat/feline* sat, *x:tip*`: two blanks, the
second one at the very end. -/
def exampleBlanks : List (JSString × JSString) :=
  [("cat/feline".toList, " sat, ".toList), ("x:tip".toList, [])]

/-! ## Lemmas on the string primitives -/

theorem indexOfAux_of_not_mem (c : Char) (t : List Char) (i : Nat) (h : c ∉ t) :
    indexOfAux c t i = -1 := by
  induction t generalizing i with
  | nil => rfl
  | cons x xs ih =>
    have hx : x ≠ c := fun e => h (by simp [e])
    have hxs : c ∉ xs := fun e => h (by simp [e])
    simp [indexOfAux, hx, ih (i + 1) hxs]

theorem indexOfAux_append (c : Char) (a b : List Char) (i : Nat) (h : c ∉ a) :
    indexOfAux c (a ++ c :: b) i = ((i + a.length : Nat) : Int) := by
  induction a generalizing i with
  | nil => simp [indexOfAux]
  | cons x xs ih =>
    have hx : x ≠ c := fun e => h (by simp [e])
    have hxs : c ∉ xs := fun e => h (by simp [e])
    rw [List.cons_append, indexOfAux, if_neg hx, ih (i + 1) hxs, List.length_cons]
    congr 1
    omega

theorem indexOf_zero (str : JSString) (c : Char) : indexOf str c 0 = indexOfAux c str 0 := by
  simp [indexOf]

theorem slice_from_append (a b : List Char) (c : Char) :
    slice (a ++ c :: b) ((a.length : Int) + 1) none = b := by
  have h1 : ¬ ((a.length : Int) + 1 < 0) := by omega
  have h2 : ((a.length : Int) + 1).toNat = a.length + 1 := by omega
  have h3 : (a ++ c :: b).length = a.length + (b.length + 1) := by simp
  have h4 : a.length + 1 ≤ a.length + (b.length + 1) := by omega
  simp only [slice, relativeIndex, h1, h2, if_false, h3, Nat.min_eq_left h4]
  rw [← h3, List.take_length]
  have : a ++ c :: b = (a ++ [c]) ++ b := by simp
  rw [this, List.drop_left' (by simp)]

theorem slice_upto_append (a b : List Char) (c : Char) :
    slice (a ++ c :: b) 0 (some (a.length : Int)) = a := by
  have h1 : ¬ ((a.length : Int) < 0) := by omega
  simp [slice, relativeIndex, h1]

theorem splitTip_of_colon (a b : List Char) (h : ':' ∉ a) :
    splitTip (a ++ ':' :: b) = (some b, a) := by
  have hi : indexOf (a ++ ':' :: b) ':' 0 = (a.length : Int) := by
    rw [indexOf_zero, indexOfAux_append _ _ _ _ h]; simp
  have hne : (a.length : Int) ≠ -1 := by omega
  simp only [splitTip, hi, ne_eq, hne, not_false_eq_true, if_true, slice_from_append,
    slice_upto_append]

theorem splitTip_of_no_colon (t : List Char) (h : ':' ∉ t) : splitTip t = (none, t) := by
  have hi : indexOf t ':' 0 = -1 := by rw [indexOf_zero, indexOfAux_of_not_mem _ _ _ h]
  simp [splitTip, hi]

/-- Every string is its part before the first `c`, then either nothing or `c`
and a remainder. -/
theorem first_occurrence (c : Char) (t : List Char) :
    (c ∉ t ∧ t.takeWhile (fun x => x != c) = t) ∨
    ∃ b, t = t.takeWhile (fun x => x != c) ++ c :: b := by
  induction t with
  | nil => left; simp
  | cons x xs ih =>
    by_cases hx : x = c
    · right; exact ⟨xs, by simp [hx]⟩
    · rcases ih with ⟨h1, h2⟩ | ⟨b, hb⟩
      · left
        refine ⟨?_, ?_⟩
        · intro hm
          rcases List.mem_cons.1 hm with e | e
          · exact hx e.symm
          · exact h1 e
        · simp [List.takeWhile_cons, hx, h2]
      · right
        refine ⟨b, ?_⟩
        have : (x != c) = true := by simp [hx]
        rw [List.takeWhile_cons, this]
        simp only [if_true, List.cons_append]
        rw [← hb]

theorem not_mem_takeWhile_ne (c : Char) (t : List Char) :
    c ∉ t.takeWhile (fun x => x != c) := by
  intro h
  have := List.mem_takeWhile_imp h
  simp at this

theorem splitTip_snd (t : List Char) : (splitTip t).2 = t.takeWhile (fun x => x != ':') := by
  rcases first_occurrence ':' t with ⟨h1, h2⟩ | ⟨b, hb⟩
  · rw [splitTip_of_no_colon t h1, h2]
  · have := splitTip_of_colon (t.takeWhile (fun x => x != ':')) b (not_mem_takeWhile_ne ':' t)
    rw [← hb] at this
    rw [this]

theorem split_ne_nil (sep : Char) (t : List Char) : split sep t ≠ [] := by
  induction t with
  | nil => simp [split]
  | cons x xs ih =>
    unfold split
    split_ifs
    · simp
    · cases h : split sep xs <;> simp

theorem split_length (sep : Char) (t : List Char) :
    (split sep t).length = t.count sep + 1 := by
  induction t with
  | nil => simp [split]
  | cons x xs ih =>
    unfold split
    by_cases hx : x = sep
    · simp [hx, ih]
    · have hc : (x :: xs).count sep = xs.count sep := by
        rw [List.count_cons]; simp [hx]
      rw [if_neg hx, hc, ← ih]
      cases h : split sep xs with
      | nil => exact absurd h (split_ne_nil sep xs)
      | cons p ps => simp

theorem split_not_mem (sep : Char) (t : List Char) : ∀ p ∈ split sep t, sep ∉ p := by
  induction t with
  | nil => simp [split]
  | cons x xs ih =>
    unfold split
    by_cases hx : x = sep
    · rw [if_pos hx]
      intro p hp
      rcases List.mem_cons.1 hp with e | e
      · simp [e]
      · exact ih p e
    · rw [if_neg hx]
      cases h : split sep xs with
      | nil => exact absurd h (split_ne_nil sep xs)
      | cons q qs =>
        rw [h] at ih
        intro p hp
        rcases List.mem_cons.1 hp with e | e
        · subst e
          intro hm
          rcases List.mem_cons.1 hm with e2 | e2
          · exact hx e2.symm
          · exact ih q (by simp) e2
        · exact ih p (by simp [e])

theorem join_split (sep : Char) (t : List Char) : join [sep] (split sep t) = t := by
  induction t with
  | nil => simp [split, join]
  | cons x xs ih =>
    unfold split
    by_cases hx : x = sep
    · rw [if_pos hx]
      cases h : split sep xs with
      | nil => exact absurd h (split_ne_nil sep xs)
      | cons q qs =>
        rw [h] at ih
        simp [join, ih, hx]
    · rw [if_neg hx]
      cases h : split sep xs with
      | nil => exact absurd h (split_ne_nil sep xs)
      | cons q qs =>
        rw [h] at ih
        cases qs with
        | nil => simp [join] at ih ⊢; exact ih
        | cons r rs => simp [join] at ih ⊢; exact ih

/-! ## Lemmas on the assignment state -/

theorem inside_modify (l : List TextDraggable) (d d' : Nat) (v : Option Nat) :
    ((l.modify (fun x => { x with insideDropzone := v }) d)[d']?).bind
        (fun x => x.insideDropzone)
      = if d' = d ∧ d < l.length then v else (l[d']?).bind (fun x => x.insideDropzone) := by
  rw [List.getElem?_modify]
  by_cases h : d' = d
  · subst h
    by_cases hl : d' < l.length
    · simp [hl, List.getElem?_eq_getElem hl]
    · have : l[d']? = none := List.getElem?_eq_none (by omega)
      simp [hl, this]
  · have h2 : ¬ d = d' := fun e => h e.symm
    cases hx : l[d']? <;> simp [h, h2]

theorem contained_modify (l : List TextDroppable) (z z' : Nat) (v : Option Nat) :
    ((l.modify (fun x => { x with containedDraggable := v }) z)[z']?).bind
        (fun x => x.containedDraggable)
      = if z' = z ∧ z < l.length then v
        else (l[z']?).bind (fun x => x.containedDraggable) := by
  rw [List.getElem?_modify]
  by_cases h : z' = z
  · subst h
    by_cases hl : z' < l.length
    · simp [hl, List.getElem?_eq_getElem hl]
    · have : l[z']? = none := List.getElem?_eq_none (by omega)
      simp [hl, this]
  · have h2 : ¬ z = z' := fun e => h e.symm
    cases hx : l[z']? <;> simp [h, h2]

theorem insideOf_lt (S : DragText) (d z : Nat) (h : insideOf S d = some z) :
    d < S.draggables.length := by
  by_contra hl
  have : S.draggables[d]? = none := List.getElem?_eq_none (by omega)
  simp [insideOf, this] at h

theorem containedOf_lt (S : DragText) (d z : Nat) (h : containedOf S z = some d) :
    z < S.droppables.length := by
  by_contra hl
  have : S.droppables[z]? = none := List.getElem?_eq_none (by omega)
  simp [containedOf, this] at h

theorem insideOf_removeFromZone (S : DragText) (d d' : Nat) :
    insideOf (removeFromZone S d) d' = if d' = d then none else insideOf S d' := by
  unfold removeFromZone
  cases h : insideOf S d with
  | none =>
    by_cases e : d' = d
    · subst e; simp [h]
    · simp [e]
  | some dz =>
    have hl := insideOf_lt S d dz h
    simp only [insideOf, inside_modify, hl, and_true]

theorem containedOf_removeFromZone (S : DragText) (d z' : Nat) :
    containedOf (removeFromZone S d) z'
      = if insideOf S d = some z' ∧ z' < S.droppables.length then none
        else containedOf S z' := by
  unfold removeFromZone
  cases h : insideOf S d with
  | none => simp
  | some dz =>
    simp only [containedOf, contained_modify, Option.some.injEq]
    by_cases e : z' = dz
    · subst e; simp
    · have e2 : ¬ dz = z' := fun x => e x.symm
      simp [e, e2]

theorem length_removeFromZone (S : DragText) (d : Nat) :
    (removeFromZone S d).draggables.length = S.draggables.length ∧
    (removeFromZone S d).droppables.length = S.droppables.length := by
  unfold removeFromZone
  cases h : insideOf S d <;> simp

theorem consistent_removeFromZone (S : DragText) (d : Nat) (hC : Consistent S) :
    Consistent (removeFromZone S d) := by
  intro d' z'
  rw [insideOf_removeFromZone, containedOf_removeFromZone]
  by_cases e : d' = d
  · subst e
    by_cases hz : insideOf S d' = some z'
    · have := containedOf_lt S d' z' ((hC d' z').1 hz)
      simp [hz, this]
    · have hc : ¬ containedOf S z' = some d' := fun h => hz ((hC d' z').2 h)
      simp [hz, hc]
  · by_cases hz : insideOf S d = some z'
    · have hlt := containedOf_lt S d z' ((hC d z').1 hz)
      have hc : containedOf S z' = some d := (hC d z').1 hz
      have : ¬ insideOf S d' = some z' := by
        intro h
        have := (hC d' z').1 h
        rw [hc] at this
        exact e (Option.some.inj this).symm
      simp [e, hz, hlt, this]
    · simp [e, hz, hC d' z']

theorem insideOf_setDraggable (S : DragText) (z d d' : Nat) (hd : d < S.draggables.length) :
    insideOf (setDraggable S z d) d'
      = if d' = d then some z
        else if containedOf S z = some d' then none else insideOf S d' := by
  unfold setDraggable
  cases h : containedOf S z with
  | none => simp [insideOf, inside_modify, hd]
  | some p =>
    have hl : d < (removeFromZone S p).draggables.length := by
      rw [(length_removeFromZone S p).1]; exact hd
    have := insideOf_removeFromZone S p d'
    simp only [insideOf] at this
    simp only [insideOf, inside_modify, hl, and_true, this, Option.some.injEq]
    by_cases e : d' = d
    · simp [e]
    · by_cases e2 : d' = p
      · simp [e, e2]
      · have e3 : ¬ p = d' := fun x => e2 x.symm
        simp [e, e2, e3]

theorem containedOf_setDraggable (S : DragText) (z d z' : Nat) (hC : Consistent S)
    (hz : z < S.droppables.length) :
    containedOf (setDraggable S z d) z' = if z' = z then some d else containedOf S z' := by
  unfold setDraggable
  cases h : containedOf S z with
  | none => simp [containedOf, contained_modify, hz]
  | some p =>
    have hl : z < (removeFromZone S p).droppables.length := by
      rw [(length_removeFromZone S p).2]; exact hz
    have := containedOf_removeFromZone S p z'
    simp only [containedOf] at this
    simp only [containedOf, contained_modify, hl, and_true, this]
    by_cases e : z' = z
    · simp [e]
    · have hp : insideOf S p = some z := (hC p z).2 h
      have : ¬ z = z' := fun x => e x.symm
      simp [e, hp, this]

theorem length_setDraggable (S : DragText) (z d : Nat) :
    (setDraggable S z d).draggables.length = S.draggables.length ∧
    (setDraggable S z d).droppables.length = S.droppables.length := by
  unfold setDraggable
  cases h : containedOf S z with
  | none => simp
  | some p => simp [length_removeFromZone S p]

theorem length_move (S : DragText) (d : Nat) (t : Option Nat) :
    (moveDraggableToDroppable S d t).draggables.length = S.draggables.length ∧
    (moveDraggableToDroppable S d t).droppables.length = S.droppables.length := by
  cases t with
  | none => exact length_removeFromZone S d
  | some z =>
    have h := length_setDraggable { removeFromZone S d with answered := true } z d
    have h2 := length_removeFromZone S d
    exact ⟨h.1.trans h2.1, h.2.trans h2.2⟩

/-- What a drop does to the `insideDropzone` fields. -/
theorem insideOf_place (S : DragText) (d z d' : Nat) (hC : Consistent S)
    (hd : d < S.draggables.length) :
    insideOf (moveDraggableToDroppable S d (some z)) d'
      = if d' = d then some z
        else if insideOf S d' = some z then none else insideOf S d' := by
  have hC1 := consistent_removeFromZone S d hC
  have hl : d < ({ removeFromZone S d with answered := true } : DragText).draggables.length := by
    show d < (removeFromZone S d).draggables.length
    rw [(length_removeFromZone S d).1]; exact hd
  have h := insideOf_setDraggable { removeFromZone S d with answered := true } z d d' hl
  have hi : insideOf ({ removeFromZone S d with answered := true } : DragText) d'
      = insideOf (removeFromZone S d) d' := rfl
  have hc : containedOf ({ removeFromZone S d with answered := true } : DragText) z
      = containedOf (removeFromZone S d) z := rfl
  have hm : moveDraggableToDroppable S d (some z)
      = setDraggable { removeFromZone S d with answered := true } z d := rfl
  rw [hm, h, hi, hc]
  by_cases e : d' = d
  · simp [e]
  · have h1 : containedOf (removeFromZone S d) z = some d' ↔ insideOf S d' = some z := by
      rw [← hC1 d' z, insideOf_removeFromZone, if_neg e]
    simp only [if_neg e, insideOf_removeFromZone, h1]

/-- What a drop does to the `containedDraggable` fields. -/
theorem containedOf_place (S : DragText) (d z z' : Nat) (hC : Consistent S)
    (hz : z < S.droppables.length) :
    containedOf (moveDraggableToDroppable S d (some z)) z'
      = if z' = z then some d
        else if containedOf S z' = some d then none else containedOf S z' := by
  have hC1 : Consistent ({ removeFromZone S d with answered := true } : DragText) :=
    consistent_removeFromZone S d hC
  have hl : z < ({ removeFromZone S d with answered := true } : DragText).droppables.length := by
    show z < (removeFromZone S d).droppables.length
    rw [(length_removeFromZone S d).2]; exact hz
  have h := containedOf_setDraggable { removeFromZone S d with answered := true } z d z' hC1 hl
  have hc : containedOf ({ removeFromZone S d with answered := true } : DragText) z'
      = containedOf (removeFromZone S d) z' := rfl
  have hm : moveDraggableToDroppable S d (some z)
      = setDraggable { removeFromZone S d with answered := true } z d := rfl
  rw [hm, h, hc, containedOf_removeFromZone]
  by_cases e : z' = z
  · simp [e]
  · by_cases hz' : containedOf S z' = some d
    · have := containedOf_lt S d z' hz'
      simp [e, hz', (hC d z').2 hz', this]
    · have : ¬ insideOf S d = some z' := fun x => hz' ((hC d z').1 x)
      simp [e, hz', this]

/-- What sending a draggable back to the pool does to the `insideDropzone` fields. -/
theorem insideOf_clear (S : DragText) (d d' : Nat) :
    insideOf (moveDraggableToDroppable S d none) d'
      = if d' = d then none else insideOf S d' :=
  insideOf_removeFromZone S d d'

/-- What sending a draggable back to the pool does to the `containedDraggable` fields. -/
theorem containedOf_clear (S : DragText) (d z' : Nat) (hC : Consistent S) :
    containedOf (moveDraggableToDroppable S d none) z'
      = if containedOf S z' = some d then none else containedOf S z' := by
  have hm : moveDraggableToDroppable S d none = removeFromZone S d := rfl
  rw [hm, containedOf_removeFromZone]
  by_cases hz' : containedOf S z' = some d
  · have := containedOf_lt S d z' hz'
    simp [hz', (hC d z').2 hz', this]
  · have : ¬ insideOf S d = some z' := fun x => hz' ((hC d z').1 x)
    simp [hz', this]

theorem consistent_move (S : DragText) (m : Move) (hC : Consistent S) (hm : m.InRange S) :
    Consistent (moveDraggableToDroppable S m.1 m.2) := by
  obtain ⟨d, t⟩ := m
  cases t with
  | none => exact consistent_removeFromZone S d hC
  | some z =>
    have hd : d < S.draggables.length := hm.1
    have hz : z < S.droppables.length := hm.2 z rfl
    intro d' z'
    show insideOf (moveDraggableToDroppable S d (some z)) d' = some z'
      ↔ containedOf (moveDraggableToDroppable S d (some z)) z' = some d'
    rw [insideOf_place S d z d' hC hd, containedOf_place S d z z' hC hz]
    have hCC := hC d' z'
    have hCz := hC d' z
    have hCd := hC d z'
    by_cases e : d' = d
    · subst e
      by_cases e2 : z' = z
      · simp [e2]
      · have : ¬ z = z' := fun x => e2 x.symm
        by_cases h3 : containedOf S z' = some d' <;> simp [e2, this, h3]
    · have e' : ¬ d = d' := fun x => e x.symm
      by_cases e2 : z' = z
      · subst e2
        by_cases h3 : insideOf S d' = some z' <;> simp [e, e', h3]
      · by_cases h3 : insideOf S d' = some z
        · have h4 : ¬ insideOf S d' = some z' := by
            rw [h3]; intro x; exact e2 (Option.some.inj x).symm
          have h5 : ¬ containedOf S z' = some d' := fun x => h4 (hCC.2 x)
          by_cases h6 : containedOf S z' = some d <;> simp [e, e2, h3, h5, h6]
        · by_cases h6 : containedOf S z' = some d
          · have h7 : ¬ insideOf S d' = some z' := by
              intro x
              have := hCC.1 x
              rw [h6] at this
              exact e' (Option.some.inj this)
            simp [e, e2, h3, h6, h7]
          · simp [e, e2, h3, h6, hCC]

theorem consistent_fresh (b : Behaviour) (ps : Option (List StateEntry))
    (blanks : List (JSString × Option JSString)) : Consistent (fresh b ps blanks) := by
  intro d z
  have h1 : insideOf (fresh b ps blanks) d = none := by
    simp only [insideOf, fresh, List.getElem?_map]
    cases blanks[d]? <;> rfl
  have h2 : containedOf (fresh b ps blanks) z = none := by
    simp only [containedOf, fresh, List.getElem?_map]
    cases blanks[z]? <;> rfl
  simp [h1, h2]

theorem length_runMoves (S : DragText) (moves : List Move) :
    (runMoves S moves).draggables.length = S.draggables.length ∧
    (runMoves S moves).droppables.length = S.droppables.length := by
  induction moves generalizing S with
  | nil => exact ⟨rfl, rfl⟩
  | cons m ms ih =>
    have h1 := ih (moveDraggableToDroppable S m.1 m.2)
    have h2 := length_move S m.1 m.2
    exact ⟨h1.1.trans h2.1, h1.2.trans h2.2⟩

theorem consistent_runMoves (S : DragText) (moves : List Move) (hC : Consistent S)
    (hm : ∀ m ∈ moves, m.InRange S) : Consistent (runMoves S moves) := by
  induction moves generalizing S with
  | nil => exact hC
  | cons m ms ih =>
    have h2 := length_move S m.1 m.2
    apply ih (moveDraggableToDroppable S m.1 m.2)
      (consistent_move S m hC (hm m (by simp)))
    intro m' hm'
    have := hm m' (by simp [hm'])
    exact ⟨by rw [h2.1]; exact this.1, fun z hz => by rw [h2.2]; exact this.2 z hz⟩

/-! ## The claims on the cloze text and on `parseSolution` -/

/-- C1 (evaluation at the failing input): on the cloze text `*a**b*`, two blanks
with nothing between them, `replaceSolutionsWithBlanks` returns `__________*b*`
whenever the loop is given at least three tests of its condition: the second
blank is not replaced, the result still contains `*`, and it differs from the two
placeholders the text should become. -/
theorem replaceSolutionsWithBlanks_adjacent_blanks (trim decode : JSString → JSString)
    (k : Nat) :
    replaceSolutionsWithBlanks trim decode (k + 3) "*a**b*".toList
        = some "__________*b*".toList ∧
      '*' ∈ "__________*b*".toList ∧
      "__________*b*".toList ≠ [] ++ blankPlaceholder ++ [] ++ blankPlaceholder ++ [] :=
  ⟨rfl, by decide, by decide⟩

/-- C2: `parseSolution` splits at the first `:` only.  If the text is `a ++ ":" ++ b`
with no `:` in `a`, the solution part is `a` and the tip is all of `b` (further
colons included); if the text has no `:`, the solution part is the whole text and
the tip is `undefined`.  In both cases the solutions are computed from the
solution part alone. -/
theorem parseSolution_splits_at_first_colon (trim decode : JSString → JSString) :
    (∀ a b : JSString, ':' ∉ a →
      splitTip (a ++ ':' :: b) = (some b, a) ∧
      parseSolution trim decode (a ++ ':' :: b)
        = { tip := some b, solutions := (split '/' a).map (fun s => decode (trim s)) }) ∧
    (∀ t : JSString, ':' ∉ t →
      splitTip t = (none, t) ∧
      parseSolution trim decode t
        = { tip := none, solutions := (split '/' t).map (fun s => decode (trim s)) }) := by
  refine ⟨fun a b h => ⟨splitTip_of_colon a b h, ?_⟩, fun t h => ⟨splitTip_of_no_colon t h, ?_⟩⟩
  · simp only [parseSolution, splitTip_of_colon a b h]
  · simp only [parseSolution, splitTip_of_no_colon t h]

/-- Witness for C2: `"a:b:c"` has solution part `a` and tip `b:c`, and `"lonely"`
has solutions `["lonely"]` and no tip. -/
theorem parseSolution_splits_at_first_colon_witness :
    (':' ∉ "a".toList ∧
      splitTip ("a".toList ++ ':' :: "b:c".toList) = (some "b:c".toList, "a".toList) ∧
      parseSolution trimWhiteSpace id ("a".toList ++ ':' :: "b:c".toList)
        = { tip := some "b:c".toList,
            solutions := (split '/' "a".toList).map (fun s => id (trimWhiteSpace s)) }) ∧
    (':' ∉ "lonely".toList ∧
      splitTip "lonely".toList = (none, "lonely".toList) ∧
      parseSolution trimWhiteSpace id "lonely".toList
        = { tip := none,
            solutions := (split '/' "lonely".toList).map (fun s => id (trimWhiteSpace s)) }) :=
  ⟨⟨by decide, (parseSolution_splits_at_first_colon trimWhiteSpace id).1
      "a".toList "b:c".toList (by decide)⟩,
   ⟨by decide, (parseSolution_splits_at_first_colon trimWhiteSpace id).2
      "lonely".toList (by decide)⟩⟩

/-- C3: the solutions returned by `parseSolution` are the pieces of the solution
part (the text before the first `:`) split on `/`, in order, each trimmed and then
decoded.  The pieces are the `/`-free strings whose `/`-join is the solution part,
there are as many as the solution part has `/` plus one, so there is at least one.
On `"big/large:a size tip"` the solutions are `big` and `large` (trimmed, decoded). -/
theorem parseSolution_solutions (trim decode : JSString → JSString) (text : JSString) :
    (∃ pieces : List JSString,
      (∀ p ∈ pieces, '/' ∉ p) ∧
      join ['/'] pieces = text.takeWhile (fun c => c != ':') ∧
      pieces.length = (text.takeWhile (fun c => c != ':')).count '/' + 1 ∧
      (parseSolution trim decode text).solutions = pieces.map (fun s => decode (trim s))) ∧
    (parseSolution trim decode text).solutions.length
      = (text.takeWhile (fun c => c != ':')).count '/' + 1 ∧
    1 ≤ (parseSolution trim decode text).solutions.length ∧
    (parseSolution trim decode "big/large:a size tip".toList).solutions
      = [decode (trim "big".toList), decode (trim "large".toList)] ∧
    (parseSolution trimWhiteSpace id "big/large:a size tip".toList).solutions
      = ["big".toList, "large".toList] := by
  have hs : (parseSolution trim decode text).solutions
      = (split '/' (text.takeWhile (fun c => c != ':'))).map (fun s => decode (trim s)) := by
    rw [← splitTip_snd]; rfl
  have hl : (parseSolution trim decode text).solutions.length
      = (text.takeWhile (fun c => c != ':')).count '/' + 1 := by
    rw [hs, List.length_map, split_length]
  refine ⟨⟨split '/' (text.takeWhile (fun c => c != ':')), split_not_mem _ _, join_split _ _,
    split_length _ _, hs⟩, hl, ?_, rfl, by decide⟩
  omega

/-- C4 (counterexample): the solution part of `":tip"` is empty, so after trimming
it yields no non-empty alternative, and yet the call returns normally, with the
single solution `""` (entity decoding leaves the empty string as it is). -/
theorem parseSolution_error_counterexample :
    (∀ p ∈ split '/' (splitTip ":tip".toList).2, trimWhiteSpace p = []) ∧
    parseSolutionCall trimWhiteSpace id ":tip".toList
      = Except.ok { tip := some "tip".toList, solutions := [[]] } ∧
    ¬ ∃ msg, parseSolutionCall trimWhiteSpace id ":tip".toList = Except.error msg := by
  refine ⟨by decide, rfl, ?_⟩
  rintro ⟨msg, h⟩
  simp [parseSolutionCall] at h

/-- C4 (amended): when every alternative of the solution part trims to the empty
string, `parseSolution` does not fail.  It returns the tip as usual and one
decoded empty string per alternative (the number of `/` in the solution part plus
one), so the solutions list is not empty. -/
theorem parseSolution_all_empty (trim decode : JSString → JSString) (text : JSString)
    (h : ∀ p ∈ split '/' (splitTip text).2, trim p = []) :
    parseSolutionCall trim decode text
      = Except.ok { tip := (splitTip text).1,
                    solutions := List.replicate
                      ((text.takeWhile (fun c => c != ':')).count '/' + 1) (decode []) } ∧
    (parseSolution trim decode text).solutions ≠ [] := by
  have hs : (parseSolution trim decode text).solutions
      = List.replicate ((text.takeWhile (fun c => c != ':')).count '/' + 1) (decode []) := by
    have h1 : (parseSolution trim decode text).solutions
        = (split '/' (splitTip text).2).map (fun s => decode (trim s)) := rfl
    rw [h1, List.eq_replicate_iff]
    refine ⟨by rw [List.length_map, split_length, splitTip_snd], ?_⟩
    intro b hb
    rcases List.mem_map.1 hb with ⟨p, hp, rfl⟩
    rw [h p hp]
  refine ⟨?_, ?_⟩
  · have h2 : (parseSolution trim decode text).tip = (splitTip text).1 := rfl
    unfold parseSolutionCall
    congr 1
    cases hps : parseSolution trim decode text with
    | mk tip sols =>
      rw [hps] at hs h2
      simp only at hs h2
      rw [hs, h2]
  · rw [hs]; simp [List.replicate_succ]

/-- Witness for C4 (amended): the solution text `"/"` has two alternatives, both
empty, and `parseSolution` returns two empty solutions. -/
theorem parseSolution_all_empty_witness :
    (∀ p ∈ split '/' (splitTip "/".toList).2, trimWhiteSpace p = []) ∧
    parseSolutionCall trimWhiteSpace id "/".toList
      = Except.ok { tip := (splitTip "/".toList).1,
                    solutions := List.replicate
                      (("/".toList.takeWhile (fun c => c != ':')).count '/' + 1) (id []) } ∧
    (parseSolution trimWhiteSpace id "/".toList).solutions ≠ [] :=
  ⟨by decide, parseSolution_all_empty trimWhiteSpace id "/".toList (by decide)⟩

/-! ## The claims on the assignment state -/

/-- C7: invariant A.  Starting from the freshly constructed exercise, after any
finite sequence of drops `moveDraggableToDroppable(draggable, droppable)` and
returns to the pool `moveDraggableToDroppable(draggable, null)`, the two reference
fields agree, no draggable is assigned to two slots and no slot holds two
draggables.  A further drop of `d` on `z` leaves `d` in `z`, empties the slot `d`
occupied before, and sends the previous occupant of `z` back to the pool; a
further return of `d` to the pool empties the slot it occupied. -/
theorem invariantA_after_moves (b : Behaviour) (ps : Option (List StateEntry))
    (blanks : List (JSString × Option JSString)) (moves : List Move)
    (hm : ∀ m ∈ moves, m.InRange (fresh b ps blanks)) :
    Consistent (runMoves (fresh b ps blanks) moves) ∧
    NoDraggableInTwoSlots (runMoves (fresh b ps blanks) moves) ∧
    NoSlotHoldsTwo (runMoves (fresh b ps blanks) moves) ∧
    (∀ d z, d < blanks.length → z < blanks.length →
      insideOf (moveDraggableToDroppable (runMoves (fresh b ps blanks) moves) d (some z)) d
        = some z ∧
      containedOf (moveDraggableToDroppable (runMoves (fresh b ps blanks) moves) d (some z)) z
        = some d ∧
      (∀ z₀, insideOf (runMoves (fresh b ps blanks) moves) d = some z₀ → z₀ ≠ z →
        containedOf (moveDraggableToDroppable (runMoves (fresh b ps blanks) moves) d (some z)) z₀
          = none) ∧
      (∀ d₀, containedOf (runMoves (fresh b ps blanks) moves) z = some d₀ → d₀ ≠ d →
        insideOf (moveDraggableToDroppable (runMoves (fresh b ps blanks) moves) d (some z)) d₀
          = none)) ∧
    (∀ d, d < blanks.length →
      insideOf (moveDraggableToDroppable (runMoves (fresh b ps blanks) moves) d none) d = none ∧
      (∀ z₀, insideOf (runMoves (fresh b ps blanks) moves) d = some z₀ →
        containedOf (moveDraggableToDroppable (runMoves (fresh b ps blanks) moves) d none) z₀
          = none)) := by
  have hC := consistent_runMoves _ moves (consistent_fresh b ps blanks) hm
  have hlen := length_runMoves (fresh b ps blanks) moves
  have hn : (fresh b ps blanks).draggables.length = blanks.length := by simp [fresh]
  have hk : (fresh b ps blanks).droppables.length = blanks.length := by simp [fresh]
  refine ⟨hC, ?_, ?_, ?_, ?_⟩
  · intro d z₁ z₂ h₁ h₂
    have a := (hC d z₁).2 h₁
    have c := (hC d z₂).2 h₂
    rw [a] at c
    exact Option.some.inj c
  · intro z d₁ d₂ h₁ h₂
    have a := (hC d₁ z).1 h₁
    have c := (hC d₂ z).1 h₂
    rw [a] at c
    exact Option.some.inj c
  · intro d z hd hz
    have hd' : d < (runMoves (fresh b ps blanks) moves).draggables.length := by
      rw [hlen.1, hn]; exact hd
    have hz' : z < (runMoves (fresh b ps blanks) moves).droppables.length := by
      rw [hlen.2, hk]; exact hz
    refine ⟨?_, ?_, ?_, ?_⟩
    · rw [insideOf_place _ d z d hC hd']; simp
    · rw [containedOf_place _ d z z hC hz']; simp
    · intro z₀ h₀ hne
      rw [containedOf_place _ d z z₀ hC hz', if_neg hne, if_pos ((hC d z₀).1 h₀)]
    · intro d₀ h₀ hne
      rw [insideOf_place _ d z d₀ hC hd', if_neg hne, if_pos ((hC d₀ z).2 h₀)]
  · intro d _
    refine ⟨?_, ?_⟩
    · rw [insideOf_clear]; simp
    · intro z₀ h₀
      rw [containedOf_clear _ d z₀ hC, if_pos ((hC d z₀).1 h₀)]

theorem exampleMoves_inRange :
    ∀ m ∈ exampleMoves, m.InRange (fresh defaultBehaviour none threeBlanks) := by
  intro m hm
  simp only [exampleMoves, List.mem_cons, List.mem_singleton, List.not_mem_nil, or_false] at hm
  rcases hm with rfl | rfl | rfl | rfl <;> simp [Move.InRange, fresh, threeBlanks]

/-- Witness for C7: after the example session on three blanks, draggable 1 sits in
slot 1, draggables 0 and 2 are in the pool, and the invariant holds. -/
theorem invariantA_after_moves_witness :
    (∀ m ∈ exampleMoves, m.InRange (fresh defaultBehaviour none threeBlanks)) ∧
    (List.range 3).map (insideOf (runMoves (fresh defaultBehaviour none threeBlanks) exampleMoves))
      = [none, some 1, none] ∧
    (List.range 3).map
        (containedOf (runMoves (fresh defaultBehaviour none threeBlanks) exampleMoves))
      = [none, some 1, none] ∧
    Consistent (runMoves (fresh defaultBehaviour none threeBlanks) exampleMoves) ∧
    NoDraggableInTwoSlots (runMoves (fresh defaultBehaviour none threeBlanks) exampleMoves) ∧
    NoSlotHoldsTwo (runMoves (fresh defaultBehaviour none threeBlanks) exampleMoves) :=
  ⟨exampleMoves_inRange, by decide, by decide,
    (invariantA_after_moves defaultBehaviour none threeBlanks exampleMoves
      exampleMoves_inRange).1,
    (invariantA_after_moves defaultBehaviour none threeBlanks exampleMoves
      exampleMoves_inRange).2.1,
    (invariantA_after_moves defaultBehaviour none threeBlanks exampleMoves
      exampleMoves_inRange).2.2.1⟩

/-! ### Restoring a stored state -/

theorem propertyIndex_natCast (k : Nat) :
    (IndexValue.number (k : Int)).propertyIndex = some k := by
  have hk : ¬ ((k : Int) < 0) := by omega
  simp only [IndexValue.propertyIndex, hk, if_false, Int.toNat_ofNat]

theorem toIndex_natCast (k : Nat) : (IndexValue.number (k : Int)).toIndex = k := by
  simp only [IndexValue.toIndex, propertyIndex_natCast, Option.getD_some]

theorem toIndex_number (i : Int) : (IndexValue.number i).toIndex = i.toNat := by
  by_cases hi : i < 0
  · simp only [IndexValue.toIndex, IndexValue.propertyIndex, hi, if_true, Option.getD_none]
    omega
  · simp only [IndexValue.toIndex, IndexValue.propertyIndex, hi, if_false, Option.getD_some]

/-- The test of `setH5PUserState` on one index holds exactly of the values that
are non-numeric, negative or at least the length. -/
theorem rejected_iff (v : IndexValue) (n : Nat) :
    (isNaN v || v.ge n || v.lt 0) = true ↔ v.Rejected n := by
  unfold isNaN IndexValue.ge IndexValue.lt IndexValue.Rejected
  cases v.toNumber with
  | nan => simp
  | infinite negative => cases negative <;> simp
  | integer i =>
    simp only [Bool.false_or, Bool.or_eq_true, decide_eq_true_eq]
    exact Or.comm
  | nonInteger floor =>
    simp only [Bool.false_or, Bool.or_eq_true, decide_eq_true_eq]
    exact Or.comm

/-- A value the test turns away is not a non-negative integer below the length. -/
theorem not_valid_of_rejected (v : IndexValue) (n : Nat) (h : v.Rejected n) :
    ¬ ValidIndex v n := by
  rintro ⟨k, rfl, hlt⟩
  simp only [IndexValue.Rejected, IndexValue.toNumber] at h
  omega

/-- Among integers and non-numeric values, the test turns away exactly the values
that are not non-negative integers below the length. -/
theorem invalid_iff (v : IndexValue) (n : Nat) (hv : v.IntegerOrNotNumeric) :
    v.Rejected n ↔ ¬ ValidIndex v n := by
  refine ⟨not_valid_of_rejected v n, ?_⟩
  rcases hv with rfl | ⟨i, rfl⟩
  · intro _
    simp only [IndexValue.Rejected, IndexValue.toNumber]
  · intro h
    simp only [IndexValue.Rejected, IndexValue.toNumber]
    by_contra hc
    apply h
    refine ⟨i.toNat, ?_, ?_⟩
    · congr 1; omega
    · omega

theorem entry_rejected_iff (S : DragText) (e : StateEntry) :
    ((isNaN e.draggable || e.draggable.ge S.draggables.length || e.draggable.lt 0) ||
      (isNaN e.droppable || e.droppable.ge S.droppables.length || e.droppable.lt 0)) = true
      ↔ e.Rejected S := by
  rw [Bool.or_eq_true, rejected_iff, rejected_iff]
  rfl

theorem not_valid_of_entry_rejected (S : DragText) (e : StateEntry) (h : e.Rejected S) :
    ¬ e.Valid S := by
  rintro ⟨h1, h2⟩
  rcases h with h | h
  · exact not_valid_of_rejected _ _ h h1
  · exact not_valid_of_rejected _ _ h h2

theorem valid_congr (S T : DragText) (e : StateEntry)
    (h1 : T.draggables.length = S.draggables.length)
    (h2 : T.droppables.length = S.droppables.length) : e.Valid T ↔ e.Valid S := by
  unfold StateEntry.Valid
  rw [h1, h2]

theorem rejected_congr (S T : DragText) (e : StateEntry)
    (h1 : T.draggables.length = S.draggables.length)
    (h2 : T.droppables.length = S.droppables.length) : e.Rejected T ↔ e.Rejected S := by
  unfold StateEntry.Rejected
  rw [h1, h2]

/-- `array[value]` for a non-negative integer below the length is the element at
that index. -/
theorem arrayLookup_valid {α : Type} (l : List α) (v : IndexValue)
    (h : ValidIndex v l.length) : arrayLookup l v = some v.toIndex := by
  obtain ⟨k, rfl, hlt⟩ := h
  have hk : ¬ ((k : Int) < 0) := by omega
  simp only [arrayLookup, IndexValue.propertyIndex, IndexValue.toIndex, hk, if_false,
    Int.toNat_ofNat, hlt, if_true, Option.getD_some]

theorem setH5PUserStateEntries_cons_rejected (S : DragText) (e : StateEntry)
    (rest : List StateEntry) (h : e.Rejected S) :
    setH5PUserStateEntries S (e :: rest) = (S, Except.error invalidStateMessage) := by
  have := (entry_rejected_iff S e).2 h
  simp only [setH5PUserStateEntries, this, if_true]

theorem setH5PUserStateEntries_cons_valid (S : DragText) (e : StateEntry)
    (rest : List StateEntry) (h : e.Valid S) :
    setH5PUserStateEntries S (e :: rest)
      = setH5PUserStateEntries (moveDraggableToDroppable S e.toMove.1 e.toMove.2) rest := by
  have : ¬ ((isNaN e.draggable || e.draggable.ge S.draggables.length || e.draggable.lt 0) ||
      (isNaN e.droppable || e.droppable.ge S.droppables.length || e.droppable.lt 0)) = true :=
    fun x => not_valid_of_entry_rejected S e ((entry_rejected_iff S e).1 x) h
  simp only [setH5PUserStateEntries, this, if_false, StateEntry.toMove,
    arrayLookup_valid _ _ h.1, arrayLookup_valid _ _ h.2, moveDraggableToDroppableCall,
    Bool.false_eq_true]

/-- The loop of `setH5PUserState` applies the valid entries before the first entry
that its test turns away, in order, and throws there. -/
theorem setH5PUserStateEntries_invalid (S : DragText) (pre : List StateEntry)
    (bad : StateEntry) (post : List StateEntry) (hpre : ∀ e ∈ pre, e.Valid S)
    (hbad : bad.Rejected S) :
    setH5PUserStateEntries S (pre ++ bad :: post)
      = (runMoves S (pre.map StateEntry.toMove), Except.error invalidStateMessage) := by
  induction pre generalizing S with
  | nil => exact setH5PUserStateEntries_cons_rejected S bad post hbad
  | cons e es ih =>
    have hl := length_move S e.toMove.1 e.toMove.2
    rw [List.cons_append, setH5PUserStateEntries_cons_valid S e _ (hpre e (by simp)), ih]
    · rfl
    · intro e' he'
      exact (valid_congr S _ e' hl.1 hl.2).2 (hpre e' (by simp [he']))
    · exact (rejected_congr S _ bad hl.1 hl.2).2 hbad

/-- The loop of `setH5PUserState` applies all entries, in order, when all are valid. -/
theorem setH5PUserStateEntries_valid (S : DragText) (entries : List StateEntry)
    (h : ∀ e ∈ entries, e.Valid S) :
    setH5PUserStateEntries S entries
      = (runMoves S (entries.map StateEntry.toMove), Except.ok ()) := by
  induction entries generalizing S with
  | nil => rfl
  | cons e es ih =>
    have hl := length_move S e.toMove.1 e.toMove.2
    rw [setH5PUserStateEntries_cons_valid S e _ (h e (by simp)), ih]
    · rfl
    · intro e' he'
      exact (valid_congr S _ e' hl.1 hl.2).2 (h e' (by simp [he']))

/-- A list with an invalid entry splits at its first invalid entry. -/
theorem split_at_first_invalid (S : DragText) (entries : List StateEntry)
    (h : ∃ e ∈ entries, ¬ e.Valid S) :
    ∃ pre bad post, entries = pre ++ bad :: post ∧ (∀ e ∈ pre, e.Valid S) ∧ ¬ bad.Valid S := by
  induction entries with
  | nil => obtain ⟨e, he, _⟩ := h; simp at he
  | cons x xs ih =>
    by_cases hx : x.Valid S
    · obtain ⟨e, he, hne⟩ := h
      have : ∃ e ∈ xs, ¬ e.Valid S := by
        rcases List.mem_cons.1 he with rfl | h'
        · exact absurd hx hne
        · exact ⟨e, h', hne⟩
      obtain ⟨pre, bad, post, h1, h2, h3⟩ := ih this
      refine ⟨x :: pre, bad, post, by simp [h1], ?_, h3⟩
      intro e' he'
      rcases List.mem_cons.1 he' with rfl | h'
      · exact hx
      · exact h2 e' h'
    · exact ⟨[], x, xs, rfl, by simp, hx⟩

/-- The `forEach` of `calculateScore` changes `correctAnswers` only, adding one
per correct droppable. -/
theorem calculateScore_foldl (isCorrect : List TextDraggable → TextDroppable → Bool)
    (l : List TextDroppable) (S : DragText) :
    l.foldl
        (fun self entry =>
          if isCorrect self.draggables entry then
            { self with correctAnswers := self.correctAnswers + 1 }
          else self) S
      = { S with correctAnswers := S.correctAnswers + l.countP (isCorrect S.draggables) } := by
  induction l generalizing S with
  | nil => simp
  | cons x xs ih =>
    rw [List.foldl_cons, ih]
    by_cases hx : isCorrect S.draggables x = true
    · simp only [hx, if_true, List.countP_cons_of_pos]
      congr 1
      omega
    · simp only [hx, Bool.false_eq_true, if_false]
      rw [List.countP_cons_of_neg _ _ hx]

theorem calculateScore_eq (isCorrect : List TextDraggable → TextDroppable → Bool)
    (S : DragText) :
    calculateScore isCorrect S
      = { S with correctAnswers := S.droppables.countP (isCorrect S.draggables) } := by
  unfold calculateScore
  rw [calculateScore_foldl]
  simp

theorem showEvaluation_fields (isCorrect : List TextDraggable → TextDroppable → Bool)
    (skipXapi : Bool) (S : DragText) :
    (showEvaluation isCorrect skipXapi S).2.draggables = S.draggables ∧
    (showEvaluation isCorrect skipXapi S).2.droppables = S.droppables ∧
    (showEvaluation isCorrect skipXapi S).2.answered = S.answered ∧
    (showEvaluation isCorrect skipXapi S).2.behaviour = S.behaviour := by
  unfold showEvaluation getScore
  simp only [calculateScore_eq]
  cases skipXapi <;> simp

theorem setH5PUserState_of_error (isCorrect : List TextDraggable → TextDroppable → Bool)
    (S T : DragText) (entries : List StateEntry) (msg : String)
    (hp : S.previousState = some entries)
    (h : setH5PUserStateEntries S entries = (T, Except.error msg)) :
    setH5PUserState isCorrect S = (T, Except.error msg) := by
  simp only [setH5PUserState, hp, h]

theorem setH5PUserState_of_ok (isCorrect : List TextDraggable → TextDroppable → Bool)
    (S T : DragText) (entries : List StateEntry)
    (hp : S.previousState = some entries)
    (h : setH5PUserStateEntries S entries = (T, Except.ok ())) :
    (setH5PUserState isCorrect S).2 = Except.ok () ∧
    (setH5PUserState isCorrect S).1.draggables = T.draggables ∧
    (setH5PUserState isCorrect S).1.droppables = T.droppables ∧
    (setH5PUserState isCorrect S).1.answered = T.answered := by
  have hs := showEvaluation_fields isCorrect false T
  simp only [setH5PUserState, hp, h]
  by_cases h1 : T.behaviour.instantFeedback = true
  · by_cases h2 : isAllAnswersFilled T = true
    · simp only [h1, h2, if_true]
      cases hse : showEvaluation isCorrect false T with
      | mk maxed T' =>
        rw [hse] at hs
        simp only at hs
        cases maxed
        · simp only [Bool.not_false, if_true]
          by_cases h3 : T'.behaviour.enableSolutionsButton = true
          · by_cases h4 : T'.behaviour.enableRetry = true
            · simp only [h3, h4, if_true, true_and]
              exact ⟨hs.1, hs.2.1, hs.2.2.1⟩
            · simp only [h3, h4, if_true, if_false, true_and, Bool.false_eq_true]
              exact ⟨hs.1, hs.2.1, hs.2.2.1⟩
          · by_cases h4 : T'.behaviour.enableRetry = true
            · simp only [h3, h4, if_true, if_false, true_and, Bool.false_eq_true]
              exact ⟨hs.1, hs.2.1, hs.2.2.1⟩
            · simp only [h3, h4, if_false, true_and, Bool.false_eq_true]
              exact ⟨hs.1, hs.2.1, hs.2.2.1⟩
        · simp only [Bool.not_true, Bool.false_eq_true, if_false, true_and]
          exact ⟨hs.1, hs.2.1, hs.2.2.1⟩
    · simp [h1, h2]
  · simp [h1]

/-- Whenever the loop of `setH5PUserState` throws the stored-state error, its test
has turned an entry away: one of the indices of that entry is non-numeric,
negative or out of range. -/
theorem setH5PUserStateEntries_error_only_if (S T : DragText) (entries : List StateEntry)
    (h : setH5PUserStateEntries S entries = (T, Except.error invalidStateMessage)) :
    ∃ e ∈ entries, e.Rejected S := by
  induction entries generalizing S with
  | nil => simp only [setH5PUserStateEntries] at h; cases h
  | cons e es ih =>
    by_cases ht : e.Rejected S
    · exact ⟨e, List.mem_cons_self _ _, ht⟩
    · have hf : ¬ ((isNaN e.draggable || e.draggable.ge S.draggables.length ||
          e.draggable.lt 0) ||
          (isNaN e.droppable || e.droppable.ge S.droppables.length ||
            e.droppable.lt 0)) = true :=
        fun x => ht ((entry_rejected_iff S e).1 x)
      simp only [setH5PUserStateEntries, hf, if_false, Bool.false_eq_true] at h
      cases hd : arrayLookup S.draggables e.draggable with
      | none =>
        rw [hd] at h
        simp only [moveDraggableToDroppableCall] at h
        have := (Prod.mk.inj h).2
        exact absurd (Except.error.inj this) (by decide)
      | some d =>
        cases hz : arrayLookup S.droppables e.droppable with
        | none =>
          rw [hd, hz] at h
          simp only [moveDraggableToDroppableCall] at h
          have := (Prod.mk.inj h).2
          exact absurd (Except.error.inj this) (by decide)
        | some z =>
          rw [hd, hz] at h
          simp only [moveDraggableToDroppableCall] at h
          have hl := length_move S d (some z)
          obtain ⟨e', he', hr⟩ := ih _ h
          exact ⟨e', List.mem_cons_of_mem _ he', (rejected_congr S _ e' hl.1 hl.2).1 hr⟩

/-- Whenever `setH5PUserState` throws `Error('Stored user state is invalid')`, some
entry of the previous state has an index that is not a non-negative integer below
the length of its array.  This direction holds of every stored state. -/
theorem setH5PUserState_throws_only_if
    (isCorrect : List TextDraggable → TextDroppable → Bool) (S : DragText)
    (entries : List StateEntry)
    (h : (setH5PUserState isCorrect { S with previousState := some entries }).2
      = Except.error "Stored user state is invalid") :
    ∃ e ∈ entries, ¬ ValidIndex e.draggable S.draggables.length ∨
      ¬ ValidIndex e.droppable S.droppables.length := by
  cases hr : setH5PUserStateEntries { S with previousState := some entries } entries with
  | mk T r =>
    cases r with
    | error msg =>
      rw [setH5PUserState_of_error isCorrect _ _ entries _ rfl hr] at h
      have hmsg : msg = invalidStateMessage := Except.error.inj h
      rw [hmsg] at hr
      obtain ⟨e, he, hrej⟩ := setH5PUserStateEntries_error_only_if _ _ _ hr
      refine ⟨e, he, ?_⟩
      rcases hrej with h1 | h1
      · exact Or.inl (not_valid_of_rejected _ _ h1)
      · exact Or.inr (not_valid_of_rejected _ _ h1)
    | ok u =>
      cases u
      rw [(setH5PUserState_of_ok isCorrect _ _ entries rfl hr).1] at h
      cases h

/-- On stored states whose indices all are integers or non-numeric values,
`setH5PUserState` throws `Error('Stored user state is invalid')` if and only if
some entry has a draggable index that is not a non-negative integer below
`draggables.length` or a droppable index that is not a non-negative integer below
`droppables.length`, and otherwise it completes. -/
theorem setH5PUserState_throws_iff_of_integers
    (isCorrect : List TextDraggable → TextDroppable → Bool)
    (S : DragText) (entries : List StateEntry)
    (hint : ∀ e ∈ entries, e.draggable.IntegerOrNotNumeric ∧ e.droppable.IntegerOrNotNumeric) :
    ((setH5PUserState isCorrect { S with previousState := some entries }).2
        = Except.error "Stored user state is invalid"
      ↔ ∃ e ∈ entries, ¬ ValidIndex e.draggable S.draggables.length ∨
          ¬ ValidIndex e.droppable S.droppables.length) ∧
    ((setH5PUserState isCorrect { S with previousState := some entries }).2 = Except.ok ()
      ↔ ∀ e ∈ entries, ValidIndex e.draggable S.draggables.length ∧
          ValidIndex e.droppable S.droppables.length) := by
  have hrej : ∀ e ∈ entries, ¬ e.Valid S → e.Rejected S := by
    intro e he hv
    by_contra hn
    apply hv
    constructor
    · by_contra hc
      exact hn (Or.inl ((invalid_iff _ _ (hint e he).1).2 hc))
    · by_contra hc
      exact hn (Or.inr ((invalid_iff _ _ (hint e he).2).2 hc))
  have key1 : (∃ e ∈ entries, ¬ e.Valid S) →
      (setH5PUserState isCorrect { S with previousState := some entries }).2
        = Except.error "Stored user state is invalid" := by
    intro h
    obtain ⟨pre, bad, post, h1, h2, h3⟩ := split_at_first_invalid S entries h
    have hmem : bad ∈ entries := by rw [h1]; simp
    have := setH5PUserStateEntries_invalid { S with previousState := some entries } pre bad
      post h2 (hrej bad hmem h3)
    rw [← h1] at this
    rw [setH5PUserState_of_error isCorrect _ _ entries _ rfl this]
    rfl
  have key2 : (∀ e ∈ entries, e.Valid S) →
      (setH5PUserState isCorrect { S with previousState := some entries }).2
        = Except.ok () := by
    intro h
    have := setH5PUserStateEntries_valid { S with previousState := some entries } entries h
    exact (setH5PUserState_of_ok isCorrect _ _ entries rfl this).1
  have hex : (∃ e ∈ entries, ¬ e.Valid S) ↔
      ∃ e ∈ entries, ¬ ValidIndex e.draggable S.draggables.length ∨
        ¬ ValidIndex e.droppable S.droppables.length := by
    constructor
    · rintro ⟨e, he, hv⟩
      refine ⟨e, he, ?_⟩
      unfold StateEntry.Valid at hv
      tauto
    · rintro ⟨e, he, hv⟩
      refine ⟨e, he, ?_⟩
      unfold StateEntry.Valid
      tauto
  refine ⟨?_, ?_⟩
  · exact ⟨setH5PUserState_throws_only_if isCorrect S entries, fun h => key1 (hex.2 h)⟩
  · constructor
    · intro h e he
      by_contra hv
      rw [key1 ⟨e, he, hv⟩] at h
      cases h
    · exact key2

/-- With the droppable index `1.5` on three blanks the test of `setH5PUserState`
passes as well, `droppables[1.5]` is `undefined`, and the call of
`moveDraggableToDroppable` throws a `TypeError` after it has set `answered`. -/
theorem setH5PUserState_nonInteger_droppable :
    (setH5PUserState neverCorrect
        (fresh defaultBehaviour (some nonIntegerDroppableState) threeBlanks)).2
      = Except.error "TypeError: cannot read property appendInsideDroppableTo of undefined" ∧
    (fresh defaultBehaviour (some nonIntegerDroppableState) threeBlanks).answered = false ∧
    (setH5PUserState neverCorrect
        (fresh defaultBehaviour (some nonIntegerDroppableState) threeBlanks)).1.answered
      = true :=
  ⟨rfl, by decide, by decide⟩

/-- C5 (the code at the failing input): on three blanks, the stored state
`[{draggable: 1.5, droppable: 0}]` has a draggable index that is not a non-negative
integer below `draggables.length`, and yet `setH5PUserState` does not throw
`Error('Stored user state is invalid')` on it.  The test
`isNaN(x) || x >= length || x < 0` is false of `1.5`, `draggables[1.5]` is
`undefined`, and the call of `moveDraggableToDroppable` throws a `TypeError`.  The
state `[{draggable: 5, droppable: 0}]` does throw the stored-state error. -/
theorem setH5PUserState_nonInteger_index :
    ¬ ValidIndex (IndexValue.nonInteger 1)
        (fresh defaultBehaviour (some nonIntegerState) threeBlanks).draggables.length ∧
    (isNaN (IndexValue.nonInteger 1) ||
        (IndexValue.nonInteger 1).ge
          (fresh defaultBehaviour (some nonIntegerState) threeBlanks).draggables.length ||
        (IndexValue.nonInteger 1).lt 0) = false ∧
    arrayLookup (fresh defaultBehaviour (some nonIntegerState) threeBlanks).draggables
        (IndexValue.nonInteger 1) = none ∧
    (setH5PUserState neverCorrect
        (fresh defaultBehaviour (some nonIntegerState) threeBlanks)).2
      = Except.error "TypeError: cannot read property removeFromZone of undefined" ∧
    (setH5PUserState neverCorrect
        (fresh defaultBehaviour (some nonIntegerState) threeBlanks)).2
      ≠ Except.error "Stored user state is invalid" ∧
    (setH5PUserState neverCorrect
        (fresh defaultBehaviour (some outOfRangeState) threeBlanks)).2
      = Except.error "Stored user state is invalid" := by
  refine ⟨?_, by decide, by decide, rfl, ?_, rfl⟩
  · rintro ⟨k, hk, _⟩
    cases hk
  · intro h
    exact absurd (Except.error.inj h) (by decide)

/-- C6 (counterexample): on three blanks, restoring
`[{draggable: 0, droppable: 0}, {draggable: 5, droppable: 0}]` throws, and when it
throws the first entry has been applied: draggable 0, which was in the pool, is
inside droppable 0, and `answered`, which was `false`, is `true`. -/
theorem setH5PUserState_midway_counterexample :
    (setH5PUserState neverCorrect
        (fresh defaultBehaviour (some validThenInvalidState) threeBlanks)).2
      = Except.error "Stored user state is invalid" ∧
    insideOf (fresh defaultBehaviour (some validThenInvalidState) threeBlanks) 0 = none ∧
    insideOf (setH5PUserState neverCorrect
        (fresh defaultBehaviour (some validThenInvalidState) threeBlanks)).1 0 = some 0 ∧
    containedOf (setH5PUserState neverCorrect
        (fresh defaultBehaviour (some validThenInvalidState) threeBlanks)).1 0 = some 0 ∧
    (fresh defaultBehaviour (some validThenInvalidState) threeBlanks).answered = false ∧
    (setH5PUserState neverCorrect
        (fresh defaultBehaviour (some validThenInvalidState) threeBlanks)).1.answered = true :=
  ⟨rfl, by decide, by decide, by decide, by decide, by decide⟩

/-- C6 (amended): when the entries of the previous state up to some entry are valid
(non-negative integers below the lengths) and that entry has an index that is
non-numeric, negative or out of range, `setH5PUserState` throws
`Error('Stored user state is invalid')` at that entry: the entries before it have
been applied, in input order, and no entry from it on has been.  If that entry is
the first one, nothing has been applied: the two arrays and `answered` are
unchanged. -/
theorem setH5PUserState_applies_until_invalid (isCorrect : List TextDraggable → TextDroppable → Bool)
    (S : DragText) (pre : List StateEntry) (bad : StateEntry) (post : List StateEntry)
    (hpre : ∀ e ∈ pre, e.Valid S) (hbad : bad.Rejected S) :
    setH5PUserState isCorrect { S with previousState := some (pre ++ bad :: post) }
      = (runMoves { S with previousState := some (pre ++ bad :: post) }
          (pre.map StateEntry.toMove),
        Except.error "Stored user state is invalid") ∧
    (setH5PUserState isCorrect { S with previousState := some (bad :: post) }).1.draggables
      = S.draggables ∧
    (setH5PUserState isCorrect { S with previousState := some (bad :: post) }).1.droppables
      = S.droppables ∧
    (setH5PUserState isCorrect { S with previousState := some (bad :: post) }).1.answered
      = S.answered := by
  have main : ∀ (p : List StateEntry), (∀ e ∈ p, e.Valid S) →
      setH5PUserState isCorrect { S with previousState := some (p ++ bad :: post) }
        = (runMoves { S with previousState := some (p ++ bad :: post) }
            (p.map StateEntry.toMove),
          Except.error "Stored user state is invalid") := by
    intro p hp
    have := setH5PUserStateEntries_invalid { S with previousState := some (p ++ bad :: post) }
      p bad post hp hbad
    rw [setH5PUserState_of_error isCorrect _ _ _ _ rfl this]
    rfl
  have h := main [] (by simp)
  simp only [List.nil_append] at h
  refine ⟨main pre hpre, ?_⟩
  rw [h]
  exact ⟨rfl, rfl, rfl⟩

/-- Witness for C6 (amended): on three blanks, with the valid entry
`{draggable: 0, droppable: 0}` before `{draggable: 5, droppable: 0}`, whose
draggable index is out of range. -/
theorem setH5PUserState_applies_until_invalid_witness :
    StateEntry.Valid (fresh defaultBehaviour none threeBlanks)
      { draggable := IndexValue.number 0, droppable := IndexValue.number 0 } ∧
    StateEntry.Rejected (fresh defaultBehaviour none threeBlanks)
      { draggable := IndexValue.number 5, droppable := IndexValue.number 0 } ∧
    setH5PUserState neverCorrect
        { fresh defaultBehaviour none threeBlanks with
          previousState := some ([{ draggable := IndexValue.number 0,
                                    droppable := IndexValue.number 0 }]
            ++ { draggable := IndexValue.number 5, droppable := IndexValue.number 0 } :: []) }
      = (runMoves
          { fresh defaultBehaviour none threeBlanks with
            previousState := some ([{ draggable := IndexValue.number 0,
                                      droppable := IndexValue.number 0 }]
              ++ { draggable := IndexValue.number 5, droppable := IndexValue.number 0 } :: []) }
          ([{ draggable := IndexValue.number 0,
              droppable := IndexValue.number 0 }].map StateEntry.toMove),
        Except.error "Stored user state is invalid") :=
  ⟨⟨⟨0, rfl, by decide⟩, ⟨0, rfl, by decide⟩⟩, Or.inl (Or.inr (by decide)),
  (setH5PUserState_applies_until_invalid neverCorrect (fresh defaultBehaviour none threeBlanks)
    [{ draggable := IndexValue.number 0, droppable := IndexValue.number 0 }]
    { draggable := IndexValue.number 5, droppable := IndexValue.number 0 } []
    (by
      intro e he
      rw [List.mem_singleton] at he
      subst he
      exact ⟨⟨0, rfl, by decide⟩, ⟨0, rfl, by decide⟩⟩)
    (Or.inl (Or.inr (by decide)))).1⟩

/-- C10: scoring is idempotent.  `getScore` returns the number of droppables whose
`isCorrect()` holds, whatever `correctAnswers` held before; a second call right
after returns the same value; the value is at most `getMaxScore() =
droppables.length` (and at least 0); and the call changes neither array. -/
theorem getScore_idempotent (isCorrect : List TextDraggable → TextDroppable → Bool)
    (S : DragText) :
    (getScore isCorrect (getScore isCorrect S).2).1 = (getScore isCorrect S).1 ∧
    (getScore isCorrect S).1 = S.droppables.countP (isCorrect S.draggables) ∧
    0 ≤ (getScore isCorrect S).1 ∧
    (getScore isCorrect S).1 ≤ getMaxScore S ∧
    getMaxScore S = S.droppables.length ∧
    (getScore isCorrect S).2.draggables = S.draggables ∧
    (getScore isCorrect S).2.droppables = S.droppables := by
  have h : (getScore isCorrect S).1 = S.droppables.countP (isCorrect S.draggables) := by
    simp [getScore, calculateScore_eq]
  refine ⟨?_, h, Nat.zero_le _, ?_, rfl, ?_, ?_⟩
  · simp [getScore, calculateScore_eq]
  · rw [h]; exact List.countP_le_length _
  · simp [getScore, calculateScore_eq]
  · simp [getScore, calculateScore_eq]

/-! ### Reading the state back -/

theorem getCurrentStateFrom_eq (S : DragText) (i : Nat) (l : List TextDraggable) :
    getCurrentStateFrom S i l
      = (List.range l.length).filterMap (fun k =>
          ((l[k]?).bind (fun x => x.insideDropzone)).map (fun z =>
            ({ draggable := IndexValue.number ((i + k : Nat) : Int),
               droppable := IndexValue.number (arrayIndexOf S.droppables z) } : StateEntry))) := by
  induction l generalizing i with
  | nil => rfl
  | cons x xs ih =>
    rw [List.length_cons, List.range_succ_eq_map, List.filterMap_cons, List.filterMap_map]
    have hrest : getCurrentStateFrom S (i + 1) xs
        = List.filterMap ((fun k =>
          (((x :: xs)[k]?).bind (fun x => x.insideDropzone)).map (fun z =>
            ({ draggable := IndexValue.number ((i + k : Nat) : Int),
               droppable := IndexValue.number (arrayIndexOf S.droppables z) } : StateEntry)))
            ∘ Nat.succ) (List.range xs.length) := by
      rw [ih (i + 1)]
      congr 1
      funext k
      have : i + 1 + k = i + (k + 1) := by omega
      simp only [Function.comp, List.getElem?_cons_succ, this]
    cases hx : x.insideDropzone with
    | none => simp [getCurrentStateFrom, hx, hrest]
    | some z => simp [getCurrentStateFrom, hx, hrest]

theorem getCurrentState_eq_range (S : DragText) :
    getCurrentState S = (List.range S.draggables.length).filterMap (entryOf S) := by
  unfold getCurrentState
  rw [getCurrentStateFrom_eq]
  congr 1
  funext k
  simp [entryOf, insideOf]

theorem entryOf_of_consistent (S : DragText) (hC : Consistent S) (d : Nat) :
    entryOf S d = (insideOf S d).map (fun (z : Nat) =>
      ({ draggable := IndexValue.number (d : Int),
         droppable := IndexValue.number (z : Int) } : StateEntry)) := by
  unfold entryOf
  cases h : insideOf S d with
  | none => rfl
  | some z =>
    have := containedOf_lt S d z ((hC d z).1 h)
    simp [arrayIndexOf, this]

theorem crossMoves_inRange :
    ∀ m ∈ crossMoves, m.InRange (fresh defaultBehaviour none threeBlanks) := by
  intro m hm
  simp only [crossMoves, List.mem_cons, List.mem_singleton, List.not_mem_nil, or_false] at hm
  rcases hm with rfl | rfl <;> simp [Move.InRange, fresh, threeBlanks]

/-- C8 (counterexample): after draggable 0 is dropped on slot 1 and draggable 1 on
slot 0, `getCurrentState` returns `[{draggable: 0, droppable: 1}, {draggable: 1,
droppable: 0}]`: the entries are not in increasing slot order. -/
theorem getCurrentState_order_counterexample :
    getCurrentState (runMoves (fresh defaultBehaviour none threeBlanks) crossMoves)
      = [{ draggable := IndexValue.number 0, droppable := IndexValue.number 1 },
         { draggable := IndexValue.number 1, droppable := IndexValue.number 0 }] ∧
    ¬ (getCurrentState (runMoves (fresh defaultBehaviour none threeBlanks) crossMoves)).Pairwise
        (fun a b => a.droppable.Below b.droppable) := by
  have h : getCurrentState (runMoves (fresh defaultBehaviour none threeBlanks) crossMoves)
      = [{ draggable := IndexValue.number 0, droppable := IndexValue.number 1 },
         { draggable := IndexValue.number 1, droppable := IndexValue.number 0 }] := by
    decide
  refine ⟨h, ?_⟩
  rw [h]
  intro hp
  obtain ⟨i, j, hi, hj, hlt⟩ := List.rel_of_pairwise_cons hp (List.mem_singleton.2 rfl)
  have h1 := IndexValue.number.inj hi
  have h2 := IndexValue.number.inj hj
  omega

/-- C8 (amended): when the two reference fields agree, `getCurrentState` returns
exactly one entry per filled slot and none for an empty slot: the entry
`{draggable: d, droppable: z}` is present exactly when slot `z` contains draggable
`d`, every entry is of that kind, and no two entries name the same slot.  The
entries are in increasing order of the draggable index (the order in which the
draggables are visited), not of the slot index. -/
theorem getCurrentState_entries (S : DragText) (hC : Consistent S) :
    (∀ d z : Nat,
      ({ draggable := IndexValue.number d, droppable := IndexValue.number z } : StateEntry)
          ∈ getCurrentState S
        ↔ containedOf S z = some d) ∧
    (∀ e ∈ getCurrentState S, ∃ d z : Nat,
      e = { draggable := IndexValue.number d, droppable := IndexValue.number z } ∧
      containedOf S z = some d) ∧
    ((getCurrentState S).map (fun e => e.droppable)).Nodup ∧
    (getCurrentState S).Pairwise (fun a b => a.draggable.Below b.draggable) := by
  have hf : entryOf S = fun d => (insideOf S d).map (fun (z : Nat) =>
      ({ draggable := IndexValue.number (d : Int),
         droppable := IndexValue.number (z : Int) } : StateEntry)) :=
    funext (entryOf_of_consistent S hC)
  rw [getCurrentState_eq_range, hf]
  refine ⟨?_, ?_, ?_, ?_⟩
  · intro d z
    rw [List.mem_filterMap]
    constructor
    · rintro ⟨a, _, ha⟩
      cases hi : insideOf S a with
      | none => rw [hi] at ha; cases ha
      | some z' =>
        rw [hi] at ha
        simp only [Option.map_some', Option.some.injEq, StateEntry.mk.injEq,
          IndexValue.number.injEq, Nat.cast_inj] at ha
        obtain ⟨h1, h2⟩ := ha
        subst h1 h2
        exact (hC a z').1 hi
    · intro h
      have hi := (hC d z).2 h
      exact ⟨d, List.mem_range.2 (insideOf_lt S d z hi), by rw [hi]; rfl⟩
  · intro e he
    rw [List.mem_filterMap] at he
    obtain ⟨a, _, ha⟩ := he
    cases hi : insideOf S a with
    | none => rw [hi] at ha; cases ha
    | some z' =>
      rw [hi] at ha
      exact ⟨a, z', (Option.some.inj ha).symm, (hC a z').1 hi⟩
  · rw [List.map_filterMap]
    unfold List.Nodup
    rw [List.pairwise_filterMap]
    refine (List.nodup_range _).imp ?_
    intro a a' hne b hb b' hb' hbb
    apply hne
    cases hi : insideOf S a with
    | none => rw [hi] at hb; cases hb
    | some z =>
      cases hi' : insideOf S a' with
      | none => rw [hi'] at hb'; cases hb'
      | some z' =>
        rw [hi] at hb
        rw [hi'] at hb'
        simp only [Option.map_some', Option.mem_def, Option.some.injEq] at hb hb'
        rw [← hb, ← hb'] at hbb
        have hz : z = z' := by
          have := IndexValue.number.inj hbb
          exact_mod_cast this
        subst hz
        have c1 := (hC a z).1 hi
        have c2 := (hC a' z).1 hi'
        rw [c1] at c2
        exact Option.some.inj c2
  · rw [List.pairwise_filterMap]
    refine (List.pairwise_lt_range _).imp ?_
    intro a a' hlt b hb b' hb'
    cases hi : insideOf S a with
    | none => rw [hi] at hb; cases hb
    | some z =>
      cases hi' : insideOf S a' with
      | none => rw [hi'] at hb'; cases hb'
      | some z' =>
        rw [hi] at hb
        rw [hi'] at hb'
        simp only [Option.map_some', Option.mem_def, Option.some.injEq] at hb hb'
        subst hb hb'
        exact ⟨a, a', rfl, rfl, by exact_mod_cast hlt⟩

/-- Witness for C8 (amended): the crossed session on three blanks. -/
theorem getCurrentState_entries_witness :
    Consistent (runMoves (fresh defaultBehaviour none threeBlanks) crossMoves) ∧
    (getCurrentState (runMoves (fresh defaultBehaviour none threeBlanks) crossMoves)).Pairwise
      (fun a b => a.draggable.Below b.draggable) ∧
    ((getCurrentState (runMoves (fresh defaultBehaviour none threeBlanks) crossMoves)).map
      (fun e => e.droppable)).Nodup :=
  ⟨consistent_runMoves _ crossMoves (consistent_fresh _ _ _) crossMoves_inRange,
    (getCurrentState_entries (runMoves (fresh defaultBehaviour none threeBlanks) crossMoves)
      (consistent_runMoves _ crossMoves (consistent_fresh _ _ _) crossMoves_inRange)).2.2.2,
    (getCurrentState_entries (runMoves (fresh defaultBehaviour none threeBlanks) crossMoves)
      (consistent_runMoves _ crossMoves (consistent_fresh _ _ _) crossMoves_inRange)).2.2.1⟩

/-! ### The round trip -/

theorem map_modify_of_preserved {α β : Type} (f : α → α) (g : α → β) (h : ∀ x, g (f x) = g x)
    (l : List α) (i : Nat) : (l.modify f i).map g = l.map g := by
  apply List.ext_getElem?
  intro j
  rw [List.getElem?_map, List.getElem?_map, List.getElem?_modify]
  cases l[j]? with
  | none => rfl
  | some x =>
    by_cases e : i = j <;> simp [e, h]

theorem removeFromZone_texts (S : DragText) (d : Nat) :
    (removeFromZone S d).draggables.map (fun x => x.text) = S.draggables.map (fun x => x.text) ∧
    (removeFromZone S d).droppables.map (fun x => (x.text, x.tip))
      = S.droppables.map (fun x => (x.text, x.tip)) := by
  unfold removeFromZone
  cases h : insideOf S d with
  | none => exact ⟨rfl, rfl⟩
  | some z =>
    dsimp only
    refine ⟨?_, ?_⟩ <;> exact map_modify_of_preserved _ _ (by intro x; rfl) _ _

theorem setDraggable_texts (S : DragText) (z d : Nat) :
    (setDraggable S z d).draggables.map (fun x => x.text) = S.draggables.map (fun x => x.text) ∧
    (setDraggable S z d).droppables.map (fun x => (x.text, x.tip))
      = S.droppables.map (fun x => (x.text, x.tip)) := by
  unfold setDraggable
  cases h : containedOf S z with
  | none =>
    dsimp only
    refine ⟨?_, ?_⟩ <;> exact map_modify_of_preserved _ _ (by intro x; rfl) _ _
  | some p =>
    have hr := removeFromZone_texts S p
    dsimp only
    refine ⟨Eq.trans ?_ hr.1, Eq.trans ?_ hr.2⟩ <;>
      exact map_modify_of_preserved _ _ (by intro x; rfl) _ _

theorem move_texts (S : DragText) (d : Nat) (t : Option Nat) :
    (moveDraggableToDroppable S d t).draggables.map (fun x => x.text)
      = S.draggables.map (fun x => x.text) ∧
    (moveDraggableToDroppable S d t).droppables.map (fun x => (x.text, x.tip))
      = S.droppables.map (fun x => (x.text, x.tip)) := by
  cases t with
  | none => exact removeFromZone_texts S d
  | some z =>
    have h := setDraggable_texts { removeFromZone S d with answered := true } z d
    have h2 := removeFromZone_texts S d
    exact ⟨h.1.trans h2.1, h.2.trans h2.2⟩

theorem runMoves_texts (S : DragText) (moves : List Move) :
    (runMoves S moves).draggables.map (fun x => x.text) = S.draggables.map (fun x => x.text) ∧
    (runMoves S moves).droppables.map (fun x => (x.text, x.tip))
      = S.droppables.map (fun x => (x.text, x.tip)) := by
  induction moves generalizing S with
  | nil => exact ⟨rfl, rfl⟩
  | cons m ms ih =>
    have h1 := ih (moveDraggableToDroppable S m.1 m.2)
    have h2 := move_texts S m.1 m.2
    exact ⟨h1.1.trans h2.1, h1.2.trans h2.2⟩

theorem draggables_ext (l₁ l₂ : List TextDraggable)
    (ht : l₁.map (fun x => x.text) = l₂.map (fun x => x.text))
    (hi : ∀ d : Nat, (l₁[d]?).bind (fun x => x.insideDropzone)
      = (l₂[d]?).bind (fun x => x.insideDropzone)) : l₁ = l₂ := by
  apply List.ext_getElem?
  intro d
  have h1 := congrArg (fun l => l[d]?) ht
  simp only [List.getElem?_map] at h1
  have h2 := hi d
  cases hx : l₁[d]? with
  | none =>
    cases hy : l₂[d]? with
    | none => rfl
    | some y => rw [hx, hy] at h1; cases h1
  | some x =>
    cases hy : l₂[d]? with
    | none => rw [hx, hy] at h1; cases h1
    | some y =>
      rw [hx, hy] at h1 h2
      simp only [Option.map_some', Option.some.injEq, Option.some_bind] at h1 h2
      cases x; cases y; simp_all

theorem droppables_ext (l₁ l₂ : List TextDroppable)
    (ht : l₁.map (fun x => (x.text, x.tip)) = l₂.map (fun x => (x.text, x.tip)))
    (hi : ∀ z : Nat, (l₁[z]?).bind (fun x => x.containedDraggable)
      = (l₂[z]?).bind (fun x => x.containedDraggable)) : l₁ = l₂ := by
  apply List.ext_getElem?
  intro d
  have h1 := congrArg (fun l => l[d]?) ht
  simp only [List.getElem?_map] at h1
  have h2 := hi d
  cases hx : l₁[d]? with
  | none =>
    cases hy : l₂[d]? with
    | none => rfl
    | some y => rw [hx, hy] at h1; cases h1
  | some x =>
    cases hy : l₂[d]? with
    | none => rw [hx, hy] at h1; cases h1
    | some y =>
      rw [hx, hy] at h1 h2
      simp only [Option.map_some', Option.some.injEq, Option.some_bind, Prod.mk.injEq] at h1 h2
      cases x; cases y; simp_all

theorem getCurrentStateFrom_congr (S T : DragText) (h : S.droppables = T.droppables) (i : Nat)
    (l : List TextDraggable) : getCurrentStateFrom S i l = getCurrentStateFrom T i l := by
  induction l generalizing i with
  | nil => rfl
  | cons x xs ih => simp only [getCurrentStateFrom, ih, h]

theorem getCurrentState_congr (S T : DragText) (h1 : S.draggables = T.draggables)
    (h2 : S.droppables = T.droppables) : getCurrentState S = getCurrentState T := by
  unfold getCurrentState
  rw [h1, getCurrentStateFrom_congr S T h2]

theorem getCurrentState_moves (S : DragText) (hC : Consistent S) :
    (getCurrentState S).map StateEntry.toMove
      = (List.range S.draggables.length).filterMap (restoringMove S) := by
  have hf : entryOf S = fun d => (insideOf S d).map (fun (z : Nat) =>
      ({ draggable := IndexValue.number (d : Int),
         droppable := IndexValue.number (z : Int) } : StateEntry)) :=
    funext (entryOf_of_consistent S hC)
  rw [getCurrentState_eq_range, hf, List.map_filterMap]
  congr 1
  funext d
  unfold restoringMove
  cases insideOf S d with
  | none => rfl
  | some z => simp [StateEntry.toMove, toIndex_natCast]

theorem getCurrentState_valid (S F : DragText) (hC : Consistent S)
    (hl1 : F.draggables.length = S.draggables.length)
    (hl2 : F.droppables.length = S.droppables.length) :
    ∀ e ∈ getCurrentState S, e.Valid F := by
  have hf : entryOf S = fun d => (insideOf S d).map (fun (z : Nat) =>
      ({ draggable := IndexValue.number (d : Int),
         droppable := IndexValue.number (z : Int) } : StateEntry)) :=
    funext (entryOf_of_consistent S hC)
  rw [getCurrentState_eq_range, hf]
  intro e he
  rw [List.mem_filterMap] at he
  obtain ⟨a, _, ha⟩ := he
  cases hi : insideOf S a with
  | none => rw [hi] at ha; cases ha
  | some z =>
    rw [hi] at ha
    have he := (Option.some.inj ha).symm
    subst he
    exact ⟨⟨a, rfl, by rw [hl1]; exact insideOf_lt S a z hi⟩,
      ⟨z, rfl, by rw [hl2]; exact containedOf_lt S a z ((hC a z).1 hi)⟩⟩

theorem runMoves_append (S : DragText) (a b : List Move) :
    runMoves S (a ++ b) = runMoves (runMoves S a) b := by
  unfold runMoves
  rw [List.foldl_append]

/-- Replaying the restoring moves of the first `k` draggables on an empty instance
rebuilds the assignment of `S` on those draggables. -/
theorem restore_upTo (S F : DragText) (hC : Consistent S)
    (hF1 : ∀ d, insideOf F d = none) (hF2 : ∀ z, containedOf F z = none)
    (hl1 : F.draggables.length = S.draggables.length)
    (hl2 : F.droppables.length = S.droppables.length) (k : Nat) :
    Consistent (runMoves F ((List.range k).filterMap (restoringMove S))) ∧
    (∀ d, insideOf (runMoves F ((List.range k).filterMap (restoringMove S))) d
      = if d < k then insideOf S d else none) ∧
    (∀ z, containedOf (runMoves F ((List.range k).filterMap (restoringMove S))) z
      = (containedOf S z).bind (fun d => if d < k then some d else none)) := by
  induction k with
  | zero =>
    refine ⟨?_, ?_, ?_⟩
    · intro d z
      show insideOf F d = some z ↔ containedOf F z = some d
      rw [hF1, hF2]; simp
    · intro d
      show insideOf F d = _
      rw [hF1]; simp
    · intro z
      show containedOf F z = _
      rw [hF2]
      cases containedOf S z <;> simp
  | succ k ih =>
    obtain ⟨ihC, ihI, ihD⟩ := ih
    rw [List.range_succ, List.filterMap_append, runMoves_append]
    cases hk : insideOf S k with
    | none =>
      have hnil : List.filterMap (restoringMove S) [k] = [] := by
        simp [restoringMove, hk]
      rw [hnil]
      refine ⟨ihC, ?_, ?_⟩
      · intro d
        show insideOf (runMoves F ((List.range k).filterMap (restoringMove S))) d = _
        rw [ihI]
        by_cases h1 : d < k
        · have : d < k + 1 := by omega
          simp [h1, this]
        · by_cases h2 : d = k
          · subst h2; simp [hk]
          · have : ¬ d < k + 1 := by omega
            simp [h1, this]
      · intro z
        show containedOf (runMoves F ((List.range k).filterMap (restoringMove S))) z = _
        rw [ihD]
        cases hz : containedOf S z with
        | none => rfl
        | some d =>
          have hne : d ≠ k := by
            intro e
            subst e
            rw [(hC d z).2 hz] at hk
            cases hk
          by_cases h1 : d < k
          · have : d < k + 1 := by omega
            simp [h1, this]
          · have : ¬ d < k + 1 := by omega
            simp [h1, this]
    | some z =>
      have hone : List.filterMap (restoringMove S) [k] = [(k, some z)] := by
        simp [restoringMove, hk]
      rw [hone]
      have hlen := length_runMoves F ((List.range k).filterMap (restoringMove S))
      have hkn : k < (runMoves F ((List.range k).filterMap (restoringMove S))).draggables.length := by
        rw [hlen.1, hl1]; exact insideOf_lt S k z hk
      have hzm : z < (runMoves F ((List.range k).filterMap (restoringMove S))).droppables.length := by
        rw [hlen.2, hl2]; exact containedOf_lt S k z ((hC k z).1 hk)
      have hstep : runMoves (runMoves F ((List.range k).filterMap (restoringMove S)))
          [(k, some z)]
          = moveDraggableToDroppable
              (runMoves F ((List.range k).filterMap (restoringMove S))) k (some z) := rfl
      rw [hstep]
      refine ⟨consistent_move _ (k, some z) ihC ⟨hkn, fun z' hz' => by
        cases hz'; exact hzm⟩, ?_, ?_⟩
      · intro d
        rw [insideOf_place _ k z d ihC hkn, ihI]
        by_cases h2 : d = k
        · subst h2; simp [hk]
        · by_cases h1 : d < k
          · have h3 : d < k + 1 := by omega
            have h4 : ¬ insideOf S d = some z := by
              intro x
              have c1 := (hC d z).1 x
              have c2 := (hC k z).1 hk
              rw [c1] at c2
              exact h2 (Option.some.inj c2)
            simp [h1, h2, h3, h4]
          · have h3 : ¬ d < k + 1 := by omega
            simp [h1, h2, h3]
      · intro z'
        rw [containedOf_place _ k z z' ihC hzm, ihD]
        by_cases h2 : z' = z
        · subst h2
          rw [(hC k z').1 hk]
          simp
        · cases hz : containedOf S z' with
          | none => simp [h2]
          | some d =>
            have hne : d ≠ k := by
              intro e
              subst e
              rw [(hC d z').2 hz] at hk
              exact h2 (Option.some.inj hk)
            by_cases h1 : d < k
            · have h3 : d < k + 1 := by omega
              have h5 : ¬ d = k := hne
              simp [h1, h2, h3, h5]
            · have h3 : ¬ d < k + 1 := by omega
              simp [h1, h2, h3]

theorem fresh_empty (b : Behaviour) (ps : Option (List StateEntry))
    (blanks : List (JSString × Option JSString)) :
    (∀ d, insideOf (fresh b ps blanks) d = none) ∧
    (∀ z, containedOf (fresh b ps blanks) z = none) := by
  refine ⟨fun d => ?_, fun z => ?_⟩
  · simp only [insideOf, fresh, List.getElem?_map]
    cases blanks[d]? <;> rfl
  · simp only [containedOf, fresh, List.getElem?_map]
    cases blanks[z]? <;> rfl

/-- C9: round trip.  Let `S` be reached from the freshly constructed exercise by
drops and returns to the pool.  Restoring `getCurrentState()` of `S` on a fresh
exercise with the same blanks (whatever its behaviour settings) does not throw and
rebuilds the assignment of `S`: the `draggables` and `droppables` arrays are those
of `S`, and `getCurrentState()` afterwards returns the same entries. -/
theorem restore_roundtrip (isCorrect : List TextDraggable → TextDroppable → Bool)
    (b b' : Behaviour) (ps : Option (List StateEntry))
    (blanks : List (JSString × Option JSString)) (moves : List Move)
    (hm : ∀ m ∈ moves, m.InRange (fresh b ps blanks)) :
    (setH5PUserState isCorrect
        (fresh b' (some (getCurrentState (runMoves (fresh b ps blanks) moves))) blanks)).2
      = Except.ok () ∧
    (setH5PUserState isCorrect
        (fresh b' (some (getCurrentState (runMoves (fresh b ps blanks) moves))) blanks)).1.draggables
      = (runMoves (fresh b ps blanks) moves).draggables ∧
    (setH5PUserState isCorrect
        (fresh b' (some (getCurrentState (runMoves (fresh b ps blanks) moves))) blanks)).1.droppables
      = (runMoves (fresh b ps blanks) moves).droppables ∧
    getCurrentState (setH5PUserState isCorrect
        (fresh b' (some (getCurrentState (runMoves (fresh b ps blanks) moves))) blanks)).1
      = getCurrentState (runMoves (fresh b ps blanks) moves) := by
  have hC := consistent_runMoves _ moves (consistent_fresh b ps blanks) hm
  have hlen := length_runMoves (fresh b ps blanks) moves
  have htx := runMoves_texts (fresh b ps blanks) moves
  generalize hS : runMoves (fresh b ps blanks) moves = S at hC hlen htx ⊢
  generalize hF : fresh b' (some (getCurrentState S)) blanks = F
  have hFp : F.previousState = some (getCurrentState S) := by rw [← hF]; rfl
  have hFd : F.draggables = (fresh b ps blanks).draggables := by rw [← hF]; rfl
  have hFz : F.droppables = (fresh b ps blanks).droppables := by rw [← hF]; rfl
  have hl1 : F.draggables.length = S.draggables.length := by rw [hFd, hlen.1]
  have hl2 : F.droppables.length = S.droppables.length := by rw [hFz, hlen.2]
  have hF1 : ∀ d, insideOf F d = none := by
    rw [← hF]; exact (fresh_empty _ _ _).1
  have hF2 : ∀ z, containedOf F z = none := by
    rw [← hF]; exact (fresh_empty _ _ _).2
  have hrun := setH5PUserStateEntries_valid F (getCurrentState S)
    (getCurrentState_valid S F hC hl1 hl2)
  rw [getCurrentState_moves S hC] at hrun
  obtain ⟨_, hI, hD⟩ := restore_upTo S F hC hF1 hF2 hl1 hl2 S.draggables.length
  have htxT := runMoves_texts F ((List.range S.draggables.length).filterMap (restoringMove S))
  generalize hT : runMoves F ((List.range S.draggables.length).filterMap (restoringMove S)) = T
    at hrun hI hD htxT
  have hdr : T.draggables = S.draggables := by
    apply draggables_ext
    · rw [htxT.1, hFd, htx.1]
    · intro d
      have := hI d
      simp only [insideOf] at this
      rw [this]
      by_cases h : d < S.draggables.length
      · simp [h]
      · have hn : S.draggables[d]? = none := List.getElem?_eq_none (by omega)
        simp [h, hn]
  have hdz : T.droppables = S.droppables := by
    apply droppables_ext
    · rw [htxT.2, hFz, htx.2]
    · intro z
      have := hD z
      simp only [containedOf] at this
      rw [this]
      cases hz : (S.droppables[z]?).bind (fun x => x.containedDraggable) with
      | none => rfl
      | some d =>
        have hlt : d < S.draggables.length := insideOf_lt S d z ((hC d z).2 hz)
        simp [hlt]
  obtain ⟨r1, r2, r3, _⟩ := setH5PUserState_of_ok isCorrect F T (getCurrentState S) hFp hrun
  refine ⟨r1, r2.trans hdr, r3.trans hdz, ?_⟩
  exact getCurrentState_congr _ S (r2.trans hdr) (r3.trans hdz)

/-- Witness for C9: the example session on three blanks, restored on an exercise
with instant feedback. -/
theorem restore_roundtrip_witness :
    (∀ m ∈ exampleMoves, m.InRange (fresh defaultBehaviour none threeBlanks)) ∧
    (setH5PUserState neverCorrect
        (fresh { defaultBehaviour with instantFeedback := true }
          (some (getCurrentState (runMoves (fresh defaultBehaviour none threeBlanks)
            exampleMoves))) threeBlanks)).2
      = Except.ok () ∧
    getCurrentState (setH5PUserState neverCorrect
        (fresh { defaultBehaviour with instantFeedback := true }
          (some (getCurrentState (runMoves (fresh defaultBehaviour none threeBlanks)
            exampleMoves))) threeBlanks)).1
      = getCurrentState (runMoves (fresh defaultBehaviour none threeBlanks) exampleMoves) ∧
    getCurrentState (runMoves (fresh defaultBehaviour none threeBlanks) exampleMoves)
      = [{ draggable := IndexValue.number 1, droppable := IndexValue.number 1 }] :=
  ⟨exampleMoves_inRange,
    (restore_roundtrip neverCorrect defaultBehaviour
      { defaultBehaviour with instantFeedback := true } none threeBlanks exampleMoves
      exampleMoves_inRange).1,
    (restore_roundtrip neverCorrect defaultBehaviour
      { defaultBehaviour with instantFeedback := true } none threeBlanks exampleMoves
      exampleMoves_inRange).2.2.2,
    by decide⟩

/-! ## The claims on adjacent blanks, on `addTaskTo` and on the shuffle -/

/-- C12 (evaluation at the failing input): the text `*a**b*c*` has five `*`, so
pairing them left to right leaves the last one without a closing delimiter.  With
at least three tests of the loop condition, `handleBlanks` calls the handler on
`a` and then on `c`, the span that ends at the last `*`, and returns
`__________*b__________`: the last `*` is consumed as a closing delimiter and the
result does not end with it. -/
theorem handleBlanks_last_delimiter_consumed (trim decode : JSString → JSString) (k : Nat) :
    "*a**b*c*".toList.count '*' = 5 ∧
    handleBlanks trim decode (k + 3) "*a**b*c*".toList
        (recording (fun _ => blankPlaceholder)) []
      = some ("__________*b__________".toList,
          [parseSolution trim decode "a".toList, parseSolution trim decode "c".toList]) ∧
    "__________*b__________".toList.getLast? ≠ some '*' :=
  ⟨by decide, rfl, by decide⟩

/-- C14 (evaluation at the failing input): with one draggable and a first
`Math.random()` of `2⁻²¹ = 4.76837158203125e-7`, the product with the length 1
converts to the string `4.76837158203125e-7`, `parseInt` reads `4` from it,
`tempArray[4]` is `undefined`, and `addDraggablesRandomly` throws instead of
appending the draggable. -/
theorem addDraggablesRandomly_small_random (k : Nat) :
    476837158203125 * 2 ^ 21 = 10 ^ 21 ∧
    numberToString (Decimal.times { mantissa := 476837158203125, exponent := -21 } 1)
      = "4.76837158203125e-7".toList ∧
    parseInt "4.76837158203125e-7".toList = IndexValue.number 4 ∧
    addDraggablesRandomly (fun _ => { mantissa := 476837158203125, exponent := -21 }) (k + 1)
        (fresh defaultBehaviour none [("nice".toList, none)])
      = some (Except.error "TypeError: cannot read property appendDraggableTo of undefined") :=
  ⟨by decide, by decide, by decide, rfl⟩

/-- C16 (evaluation at the failing input): for the blank part `*a:b:c*`,
`addTaskTo` passes the answer `a` and the tip `b`, the piece between the first two
colons, whereas `parseSolution` on `a:b:c` has the same solution part `a` but the
tip `b:c`. -/
theorem addTaskTo_tip_second_colon (trim decode : JSString → JSString) :
    addTaskToBlank "*a:b:c*".toList = ("a".toList, some "b".toList) ∧
    splitTip "a:b:c".toList = (some "b:c".toList, "a".toList) ∧
    (parseSolution trim decode "a:b:c".toList).tip = some "b:c".toList ∧
    (addTaskToBlank "*a:b:c*".toList).2 ≠ (parseSolution trim decode "a:b:c".toList).tip :=
  ⟨by decide, by decide, rfl, by
    have h1 : (addTaskToBlank "*a:b:c*".toList).2 = some "b".toList := by decide
    have h2 : (parseSolution trim decode "a:b:c".toList).tip = some "b:c".toList := rfl
    rw [h1, h2]
    decide⟩

/-! ## The xAPI response -/

theorem noSlotHoldsTwo_of_consistent (S : DragText) (hC : Consistent S) : NoSlotHoldsTwo S := by
  intro z d₁ d₂ h₁ h₂
  have a := (hC d₁ z).1 h₁
  have c := (hC d₂ z).1 h₂
  rw [a] at c
  exact Option.some.inj c

theorem arrayGet_natCast {α : Type} (l : List α) (k : Nat) :
    arrayGet l (IndexValue.number (k : Int)) = l[k]? := by
  simp only [arrayGet, propertyIndex_natCast]

theorem getXAPIResponseEntries_eq_foldl (S : DragText) (answers : List JSString)
    (l : List StateEntry) (h : ∀ e ∈ l, (arrayGet S.draggables e.draggable).isSome = true) :
    getXAPIResponseEntries S answers l = Except.ok (l.foldl (assignEntry S) answers) := by
  induction l generalizing answers with
  | nil => rfl
  | cons e es ih =>
    have he := h e (by simp)
    cases hg : arrayGet S.draggables e.draggable with
    | none => rw [hg] at he; cases he
    | some d =>
      simp only [getXAPIResponseEntries, hg, List.foldl_cons]
      rw [ih _ (fun e' he' => h e' (by simp [he']))]
      simp [assignEntry, hg]

theorem getCurrentState_draggable_exists (S : DragText) :
    ∀ e ∈ getCurrentState S, (arrayGet S.draggables e.draggable).isSome = true := by
  rw [getCurrentState_eq_range]
  intro e he
  rw [List.mem_filterMap] at he
  obtain ⟨a, ha, hea⟩ := he
  unfold entryOf at hea
  cases hi : insideOf S a with
  | none => rw [hi] at hea; cases hea
  | some z =>
    rw [hi] at hea
    have he := (Option.some.inj hea).symm
    subst he
    have hlt := List.mem_range.1 ha
    show (arrayGet S.draggables (IndexValue.number (a : Int))).isSome = true
    rw [arrayGet_natCast, List.getElem?_eq_getElem hlt]
    rfl

/-- The answers array after the entries of the draggables below `k`. -/
theorem answers_upTo (S : DragText) (hN : NoSlotHoldsTwo S) (k : Nat) :
    (((List.range k).filterMap (entryOf S)).foldl (assignEntry S)
      (List.replicate S.droppables.length [])).length = S.droppables.length ∧
    ∀ j, j < S.droppables.length →
      (∀ d, d < k → insideOf S d = some j →
        (((List.range k).filterMap (entryOf S)).foldl (assignEntry S)
          (List.replicate S.droppables.length []))[j]?
          = (S.draggables[d]?).map (fun x => x.text)) ∧
      ((∀ d, d < k → insideOf S d ≠ some j) →
        (((List.range k).filterMap (entryOf S)).foldl (assignEntry S)
          (List.replicate S.droppables.length []))[j]? = some []) := by
  induction k with
  | zero =>
    refine ⟨by simp, ?_⟩
    intro j hj
    refine ⟨fun d hd => absurd hd (Nat.not_lt_zero d), fun _ => ?_⟩
    simp [List.getElem?_replicate, hj]
  | succ k ih =>
    obtain ⟨ihL, ihJ⟩ := ih
    rw [List.range_succ, List.filterMap_append, List.foldl_append]
    generalize hA : ((List.range k).filterMap (entryOf S)).foldl (assignEntry S)
      (List.replicate S.droppables.length []) = A at ihL ihJ ⊢
    cases hk : insideOf S k with
    | none =>
      have hnil : List.filterMap (entryOf S) [k] = [] := by simp [entryOf, hk]
      rw [hnil]
      refine ⟨ihL, ?_⟩
      intro j hj
      refine ⟨?_, ?_⟩
      · intro d hd hdj
        by_cases e : d = k
        · subst e; rw [hk] at hdj; cases hdj
        · exact (ihJ j hj).1 d (by omega) hdj
      · intro h
        exact (ihJ j hj).2 (fun d hd => h d (by omega))
    | some z =>
      have hkn := insideOf_lt S k z hk
      have hone : List.filterMap (entryOf S) [k]
          = [{ draggable := IndexValue.number (k : Int),
               droppable := IndexValue.number (arrayIndexOf S.droppables z) }] := by
        simp [entryOf, hk]
      rw [hone]
      have hstep : List.foldl (assignEntry S) A
          [{ draggable := IndexValue.number (k : Int),
             droppable := IndexValue.number (arrayIndexOf S.droppables z) }]
          = arrayAssign A (IndexValue.number (arrayIndexOf S.droppables z))
              (S.draggables[k]).text := by
        simp only [List.foldl_cons, List.foldl_nil, assignEntry, arrayGet_natCast,
          List.getElem?_eq_getElem hkn, Option.map_some', Option.getD_some]
      rw [hstep]
      have hother : ∀ j, j ≠ z → j < S.droppables.length →
          (∀ d, d < k + 1 → insideOf S d = some j →
            A[j]? = (S.draggables[d]?).map (fun x => x.text)) ∧
          ((∀ d, d < k + 1 → insideOf S d ≠ some j) → A[j]? = some []) := by
        intro j hjz hj
        refine ⟨?_, ?_⟩
        · intro d hd hdj
          by_cases e : d = k
          · subst e
            rw [hk] at hdj
            exact absurd (Option.some.inj hdj).symm hjz
          · exact (ihJ j hj).1 d (by omega) hdj
        · intro h
          exact (ihJ j hj).2 (fun d hd => h d (by omega))
      by_cases hz : z < S.droppables.length
      · have hidx : arrayIndexOf S.droppables z = (z : Int) := by simp [arrayIndexOf, hz]
        have hset : arrayAssign A (IndexValue.number (arrayIndexOf S.droppables z))
            (S.draggables[k]).text = A.set z (S.draggables[k]).text := by
          rw [hidx]
          simp [arrayAssign, propertyIndex_natCast, ihL, hz]
        rw [hset]
        refine ⟨by rw [List.length_set]; exact ihL, ?_⟩
        intro j hj
        by_cases hjz : j = z
        · subst hjz
          refine ⟨?_, ?_⟩
          · intro d _ hdj
            have hdk : d = k := hN j d k hdj hk
            subst hdk
            rw [List.getElem?_set_self (by rw [ihL]; exact hj), List.getElem?_eq_getElem hkn]
            rfl
          · intro h
            exact absurd hk (h k (by omega))
        · rw [List.getElem?_set_ne (fun x => hjz x.symm)]
          exact hother j hjz hj
      · have hidx : arrayIndexOf S.droppables z = -1 := by simp [arrayIndexOf, hz]
        have hsame : arrayAssign A (IndexValue.number (arrayIndexOf S.droppables z))
            (S.draggables[k]).text = A := by
          rw [hidx]
          simp [arrayAssign, IndexValue.propertyIndex]
        rw [hsame]
        refine ⟨ihL, ?_⟩
        intro j hj
        exact hother j (by omega) hj

/-- C11: when each slot holds at most one draggable, `getXAPIResponse` returns the
`[,]`-join of a list with exactly one field per droppable, in slot order; field
`j` is the text of the draggable inside slot `j`, and the empty string when no
draggable is inside slot `j`.  With all slots empty the fields are all empty, so
that only separators are returned, and a single empty slot gives `""`. -/
theorem getXAPIResponse_fields (S : DragText) (hN : NoSlotHoldsTwo S) :
    (∃ fields : List JSString,
      getXAPIResponse S = Except.ok (join "[,]".toList fields) ∧
      fields.length = S.droppables.length ∧
      (∀ j d, j < S.droppables.length → insideOf S d = some j →
        fields[j]? = (S.draggables[d]?).map (fun x => x.text)) ∧
      (∀ j, j < S.droppables.length → (∀ d, insideOf S d ≠ some j) →
        fields[j]? = some [])) ∧
    ((∀ d, insideOf S d = none) →
      getXAPIResponse S
        = Except.ok (join "[,]".toList (List.replicate S.droppables.length []))) ∧
    join "[,]".toList (List.replicate 1 []) = [] ∧
    join "[,]".toList (List.replicate 3 []) = "[,][,]".toList := by
  have hres : getXAPIResponse S
      = Except.ok (join "[,]".toList
          (((List.range S.draggables.length).filterMap (entryOf S)).foldl (assignEntry S)
            (List.replicate S.droppables.length []))) := by
    unfold getXAPIResponse
    simp only [getXAPIResponseEntries_eq_foldl S _ _ (getCurrentState_draggable_exists S)]
    rw [getCurrentState_eq_range]
  obtain ⟨hL, hJ⟩ := answers_upTo S hN S.draggables.length
  refine ⟨⟨_, hres, hL, ?_, ?_⟩, ?_, rfl, rfl⟩
  · intro j d hj hd
    exact (hJ j hj).1 d (insideOf_lt S d j hd) hd
  · intro j hj h
    exact (hJ j hj).2 (fun d _ => h d)
  · intro hempty
    rw [hres]
    congr 2
    apply List.ext_getElem?
    intro j
    by_cases hj : j < S.droppables.length
    · rw [(hJ j hj).2 (fun d _ => by rw [hempty d]; simp)]
      simp [List.getElem?_replicate, hj]
    · rw [List.getElem?_eq_none (by rw [hL]; omega), List.getElem?_eq_none (by simp; omega)]

/-- Witness for C11: after the example session on three blanks only slot 1 is
filled, with the draggable `flexible`, and the response is `[,]flexible[,]`. -/
theorem getXAPIResponse_fields_witness :
    NoSlotHoldsTwo (runMoves (fresh defaultBehaviour none threeBlanks) exampleMoves) ∧
    getXAPIResponse (runMoves (fresh defaultBehaviour none threeBlanks) exampleMoves)
      = Except.ok "[,]flexible[,]".toList ∧
    ((∀ d, insideOf (runMoves (fresh defaultBehaviour none threeBlanks) exampleMoves) d = none) →
      getXAPIResponse (runMoves (fresh defaultBehaviour none threeBlanks) exampleMoves)
        = Except.ok (join "[,]".toList (List.replicate
            (runMoves (fresh defaultBehaviour none threeBlanks) exampleMoves).droppables.length
            []))) :=
  ⟨noSlotHoldsTwo_of_consistent _
      (consistent_runMoves _ exampleMoves (consistent_fresh _ _ _) exampleMoves_inRange),
    rfl,
    (getXAPIResponse_fields (runMoves (fresh defaultBehaviour none threeBlanks) exampleMoves)
      (noSlotHoldsTwo_of_consistent _
        (consistent_runMoves _ exampleMoves (consistent_fresh _ _ _) exampleMoves_inRange))).2.1⟩

/-! ## All answers filled -/

theorem allFilled_foldl (l : List TextDraggable) (b : Bool) :
    l.foldl (fun allFilled entry => if entry.insideDropzone = none then false else allFilled) b
        = true
      ↔ b = true ∧ ∀ x ∈ l, x.insideDropzone ≠ none := by
  induction l generalizing b with
  | nil => simp
  | cons x xs ih =>
    rw [List.foldl_cons, ih]
    by_cases hx : x.insideDropzone = none
    · simp [hx]
    · simp [hx]

/-- The test of `isAllAnswersFilled`, on the draggables. -/
theorem isAllAnswersFilled_iff (S : DragText) :
    isAllAnswersFilled S = true ↔ ∀ d, d < S.draggables.length → insideOf S d ≠ none := by
  unfold isAllAnswersFilled
  rw [allFilled_foldl]
  constructor
  · rintro ⟨_, h⟩ d hd
    have := h (S.draggables[d]) (List.getElem_mem _)
    simpa [insideOf, List.getElem?_eq_getElem hd] using this
  · intro h
    refine ⟨rfl, ?_⟩
    intro x hx
    obtain ⟨d, hd, rfl⟩ := List.getElem_of_mem hx
    have := h d hd
    simpa [insideOf, List.getElem?_eq_getElem hd] using this

/-- Under invariant A there are as many filled slots as draggables inside a slot. -/
theorem filled_card (S : DragText) (hC : Consistent S) :
    ((Finset.range S.droppables.length).filter (fun z => containedOf S z ≠ none)).card
      = ((Finset.range S.draggables.length).filter (fun d => insideOf S d ≠ none)).card := by
  refine Finset.card_bij (fun z _ => (containedOf S z).getD 0) ?_ ?_ ?_
  · intro z hz
    rw [Finset.mem_filter] at hz
    cases hc : containedOf S z with
    | none => exact absurd hc hz.2
    | some d =>
      have hi := (hC d z).2 hc
      show (containedOf S z).getD 0 ∈ _
      rw [hc, Option.getD_some, Finset.mem_filter]
      exact ⟨Finset.mem_range.2 (insideOf_lt S d z hi), by rw [hi]; simp⟩
  · intro z₁ h₁ z₂ h₂ he
    rw [Finset.mem_filter] at h₁ h₂
    cases hc₁ : containedOf S z₁ with
    | none => exact absurd hc₁ h₁.2
    | some d₁ =>
      cases hc₂ : containedOf S z₂ with
      | none => exact absurd hc₂ h₂.2
      | some d₂ =>
        dsimp only at he
        rw [hc₁, hc₂] at he
        simp only [Option.getD_some] at he
        subst he
        have a := (hC d₁ z₁).2 hc₁
        have c := (hC d₁ z₂).2 hc₂
        rw [a] at c
        exact Option.some.inj c
  · intro d hd
    rw [Finset.mem_filter] at hd
    cases hi : insideOf S d with
    | none => exact absurd hi hd.2
    | some z =>
      have hc := (hC d z).1 hi
      refine ⟨z, ?_, ?_⟩
      · rw [Finset.mem_filter]
        exact ⟨Finset.mem_range.2 (containedOf_lt S d z hc), by rw [hc]; simp⟩
      · show (containedOf S z).getD 0 = d
        rw [hc, Option.getD_some]

/-- C13: with as many draggables as droppables and invariant A, `isAllAnswersFilled`
returns `true` if and only if every slot has a draggable assigned, although what
the code tests is that no draggable has `insideDropzone === null`. -/
theorem isAllAnswersFilled_iff_all_slots (S : DragText) (hC : Consistent S)
    (hlen : S.draggables.length = S.droppables.length) :
    (isAllAnswersFilled S = true
      ↔ ∀ z, z < S.droppables.length → containedOf S z ≠ none) ∧
    (isAllAnswersFilled S = true
      ↔ ∀ d, d < S.draggables.length → insideOf S d ≠ none) := by
  refine ⟨?_, isAllAnswersFilled_iff S⟩
  rw [isAllAnswersFilled_iff]
  have hcard := filled_card S hC
  have h1 : (∀ d, d < S.draggables.length → insideOf S d ≠ none)
      ↔ ((Finset.range S.draggables.length).filter (fun d => insideOf S d ≠ none)).card
          = (Finset.range S.draggables.length).card := by
    rw [Finset.card_filter_eq_iff]
    simp only [Finset.mem_range]
  have h2 : (∀ z, z < S.droppables.length → containedOf S z ≠ none)
      ↔ ((Finset.range S.droppables.length).filter (fun z => containedOf S z ≠ none)).card
          = (Finset.range S.droppables.length).card := by
    rw [Finset.card_filter_eq_iff]
    simp only [Finset.mem_range]
  rw [h1, h2, hcard, Finset.card_range, Finset.card_range, hlen]

theorem fillingMoves_inRange :
    ∀ m ∈ fillingMoves, m.InRange (fresh defaultBehaviour none threeBlanks) := by
  intro m hm
  simp only [fillingMoves, List.mem_cons, List.mem_singleton, List.not_mem_nil, or_false] at hm
  rcases hm with rfl | rfl | rfl <;> simp [Move.InRange, fresh, threeBlanks]

/-- Witness for C13: after the filling session on three blanks every slot is
filled and `isAllAnswersFilled` returns `true`; after the example session, which
leaves two slots empty, it returns `false`. -/
theorem isAllAnswersFilled_iff_all_slots_witness :
    Consistent (runMoves (fresh defaultBehaviour none threeBlanks) fillingMoves) ∧
    (runMoves (fresh defaultBehaviour none threeBlanks) fillingMoves).draggables.length
      = (runMoves (fresh defaultBehaviour none threeBlanks) fillingMoves).droppables.length ∧
    isAllAnswersFilled (runMoves (fresh defaultBehaviour none threeBlanks) fillingMoves) = true ∧
    isAllAnswersFilled (runMoves (fresh defaultBehaviour none threeBlanks) exampleMoves) = false ∧
    (isAllAnswersFilled (runMoves (fresh defaultBehaviour none threeBlanks) fillingMoves) = true
      ↔ ∀ z, z < (runMoves (fresh defaultBehaviour none threeBlanks)
            fillingMoves).droppables.length →
          containedOf (runMoves (fresh defaultBehaviour none threeBlanks) fillingMoves) z
            ≠ none) :=
  ⟨consistent_runMoves _ fillingMoves (consistent_fresh _ _ _) fillingMoves_inRange,
    by decide, by decide, by decide,
    (isAllAnswersFilled_iff_all_slots
      (runMoves (fresh defaultBehaviour none threeBlanks) fillingMoves)
      (consistent_runMoves _ fillingMoves (consistent_fresh _ _ _) fillingMoves_inRange)
      (by decide)).1⟩

/-! ## The cloze scanner on well-separated blanks -/

theorem indexOf_eq (str : JSString) (c : Char) (p : Int) (n : Nat) (h : p = (n : Int)) :
    indexOf str c p = indexOfAux c (str.drop n) n := by
  subst h
  simp [indexOf]

theorem substring_eq (str : JSString) (p q : Int) (a b : Nat) (hp : p = (a : Int))
    (hq : q = (b : Int)) (hab : a ≤ b) (hb : b ≤ str.length) :
    substring str p q = (str.take b).drop a := by
  subst hp hq
  have h1 : min a str.length = a := Nat.min_eq_left (by omega)
  have h2 : min b str.length = b := Nat.min_eq_left hb
  simp only [substring, Int.toNat_ofNat, h1, h2, Nat.max_eq_right hab, Nat.min_eq_left hab]

theorem slice_upto_eq (str : JSString) (q : Int) (b : Nat) (hq : q = (b : Int))
    (hb : b ≤ str.length) : slice str 0 (some q) = str.take b := by
  subst hq
  have h1 : ¬ ((b : Int) < 0) := by omega
  simp [slice, relativeIndex, h1, Nat.min_eq_left hb]

theorem slice_from_eq (str : JSString) (p : Int) (a : Nat) (hp : p = (a : Int))
    (ha : a ≤ str.length) : slice str p none = str.drop a := by
  subst hp
  have h1 : ¬ ((a : Int) < 0) := by omega
  simp [slice, relativeIndex, h1, Nat.min_eq_left ha]

theorem take_of_length {α : Type} (A B : List α) (a : Nat) (ha : a = A.length) :
    (A ++ B).take a = A := by
  subst ha
  simp

theorem drop_of_length {α : Type} (A B : List α) (a : Nat) (ha : a = A.length) :
    (A ++ B).drop a = B := by
  subst ha
  simp

theorem take_drop_mid {α : Type} (A c B : List α) (a b : Nat) (ha : a = A.length)
    (hb : b = A.length + c.length) : ((A ++ c ++ B).take b).drop a = c := by
  rw [take_of_length (A ++ c) B b (by rw [hb, List.length_append]), drop_of_length A c a ha]

theorem handleBlanksBody_blank {σ : Type} (trim decode : JSString → JSString)
    (handler : σ → Solution → JSString × σ) (P c R : JSString) (ce : Option Int) (acc : σ)
    (hc : c ≠ []) (hcs : '*' ∉ c) :
    handleBlanksBody trim decode handler
        { question := P ++ '*' :: c ++ '*' :: R, clozeStart := (P.length : Int),
          clozeEnd := ce, acc := acc }
      = { question := P ++ (handler acc (parseSolution trim decode c)).1 ++ R,
          clozeStart := indexOfAux '*' (R.drop 1)
            (P.length + (handler acc (parseSolution trim decode c)).1.length + 1),
          clozeEnd := some ((P.length : Int) + 1
            + ((handler acc (parseSolution trim decode c)).1.length : Int)),
          acc := (handler acc (parseSolution trim decode c)).2 } := by
  have hq : (P ++ '*' :: c ++ '*' :: R) = (P ++ ['*']) ++ c ++ ('*' :: R) := by simp
  have hq2 : (P ++ '*' :: c ++ '*' :: R) = (P ++ ['*'] ++ c ++ ['*']) ++ R := by simp
  have hql : (P ++ '*' :: c ++ '*' :: R).length = P.length + c.length + R.length + 2 := by
    simp; omega
  have h1 : indexOf (P ++ '*' :: c ++ '*' :: R) '*' ((P.length : Int) + 1)
      = ((P.length + 1 + c.length : Nat) : Int) := by
    rw [indexOf_eq _ _ _ (P.length + 1) (by push_cast; rfl)]
    have : (P ++ '*' :: c ++ '*' :: R).drop (P.length + 1) = c ++ '*' :: R := by
      have e : P ++ '*' :: c ++ '*' :: R = (P ++ ['*']) ++ (c ++ '*' :: R) := by simp
      rw [e, drop_of_length _ _ _ (by simp)]
    rw [this, indexOfAux_append _ _ _ _ hcs]
  unfold handleBlanksBody
  dsimp only
  rw [h1]
  have h2 : ¬ (((P.length + 1 + c.length : Nat) : Int) = -1) := by omega
  have h3 : substring (P ++ '*' :: c ++ '*' :: R) ((P.length : Int) + 1)
      ((P.length + 1 + c.length : Nat) : Int) = c := by
    rw [substring_eq _ _ _ (P.length + 1) (P.length + 1 + c.length) (by push_cast; rfl) rfl
      (by omega) (by rw [hql]; omega)]
    rw [hq]
    exact take_drop_mid _ _ _ _ _ (by simp) (by simp)
  have h4 : c.length ≠ 0 := fun h => hc (List.length_eq_zero.1 h)
  have h5 : slice (P ++ '*' :: c ++ '*' :: R) 0 (some ((P.length : Int) + 1 - 1)) = P := by
    rw [slice_upto_eq _ _ P.length (by omega) (by rw [hql]; omega)]
    have hq0 : (P ++ '*' :: c ++ '*' :: R) = P ++ ('*' :: (c ++ '*' :: R)) := by simp
    rw [hq0]
    exact take_of_length P _ _ rfl
  have h6 : slice (P ++ '*' :: c ++ '*' :: R) (((P.length + 1 + c.length : Nat) : Int) + 1) none
      = R := by
    rw [slice_from_eq _ _ (P.length + 1 + c.length + 1) (by push_cast; rfl)
      (by rw [hql]; omega)]
    rw [hq2]
    exact drop_of_length _ _ _
      (by simp only [List.length_append, List.length_cons, List.length_nil])
  rw [if_neg h2, h3, if_pos h4, h5, h6]
  generalize (handler acc (parseSolution trim decode c)) = hr
  have h7 : ((P.length + 1 + c.length : Nat) : Int) + 1
      - (((P.length + 1 + c.length : Nat) : Int) + 1 - ((P.length : Int) + 1) - (hr.1.length : Int))
      = (P.length : Int) + 1 + (hr.1.length : Int) := by
    push_cast
    ring
  rw [h7]
  have h8 : indexOf (P ++ hr.1 ++ R) '*' ((P.length : Int) + 1 + (hr.1.length : Int))
      = indexOfAux '*' (R.drop 1) (P.length + hr.1.length + 1) := by
    rw [indexOf_eq _ _ _ (P.length + hr.1.length + 1) (by push_cast; ring)]
    have e : (P ++ hr.1 ++ R).drop (P.length + hr.1.length + 1) = R.drop 1 := by
      rw [← List.drop_drop, drop_of_length (P ++ hr.1) R _ (by simp)]
    rw [e]
  rw [h8]

theorem not_mem_drop {α : Type} (x : α) (l : List α) (n : Nat) (h : x ∉ l) : x ∉ l.drop n :=
  fun hm => h (List.mem_of_mem_drop hm)

/-- Where the scan resumes after a replaced blank: at the next blank, if the
literal segment in between is not empty, and nowhere if there is no next blank. -/
theorem indexOfAux_after_blank (l : JSString) (rest : List (JSString × JSString)) (i : Nat)
    (hl : '*' ∉ l) (hne : rest ≠ [] → l ≠ [])
    (hw : WellSeparated rest) :
    indexOfAux '*' ((l ++ blanksText rest).drop 1) (i + 1)
      = if rest = [] then -1 else ((i + l.length : Nat) : Int) := by
  cases rest with
  | nil =>
    simp only [blanksText, List.append_nil, if_true]
    exact indexOfAux_of_not_mem _ _ _ (not_mem_drop _ _ _ hl)
  | cons b rest' =>
    obtain ⟨c, l'⟩ := b
    have hl' := hne (by simp)
    cases l with
    | nil => exact absurd rfl hl'
    | cons x xs =>
      have hxs : '*' ∉ xs := fun e => hl (by simp [e])
      have e : ((x :: xs) ++ blanksText ((c, l') :: rest')).drop 1
          = xs ++ '*' :: (c ++ '*' :: l' ++ blanksText rest') := by
        simp [blanksText]
      rw [e, indexOfAux_append _ _ _ _ hxs]
      simp only [List.length_cons, if_neg (List.cons_ne_nil _ _)]
      congr 1
      omega

theorem handleBlanksLoop_blanks {σ : Type} (trim decode : JSString → JSString)
    (handler : σ → Solution → JSString × σ) (blanks : List (JSString × JSString))
    (P : JSString) (acc : σ) (ce : Option Int) (k : Nat) (hw : WellSeparated blanks)
    (hce : ce ≠ some (-1)) :
    handleBlanksLoop trim decode handler (blanks.length + 1 + k)
        { question := P ++ blanksText blanks,
          clozeStart := if blanks = [] then -1 else (P.length : Int),
          clozeEnd := ce, acc := acc }
      = some (P ++ (handledBlanks trim decode handler acc blanks).1,
          (handledBlanks trim decode handler acc blanks).2) := by
  induction blanks generalizing P acc ce with
  | nil =>
    have hf : ([] : List (JSString × JSString)).length + 1 + k = k + 1 := by simp; omega
    rw [hf]
    simp [handleBlanksLoop, BlankScan.continues, blanksText, handledBlanks]
  | cons b rest ih =>
    obtain ⟨c, l⟩ := b
    obtain ⟨hc, hcs, hl, hne, hrest⟩ := hw
    have hf : ((c, l) :: rest).length + 1 + k = (rest.length + 1 + k) + 1 := by
      simp only [List.length_cons]; omega
    have hq : P ++ blanksText ((c, l) :: rest) = P ++ '*' :: c ++ '*' :: (l ++ blanksText rest) := by
      simp [blanksText]
    have hcont : BlankScan.continues
        ({ question := P ++ '*' :: c ++ '*' :: (l ++ blanksText rest),
           clozeStart := (P.length : Int), clozeEnd := ce, acc := acc } : BlankScan σ) = true := by
      have h1 : ¬ ((P.length : Int) = -1) := by omega
      simp [BlankScan.continues, h1, hce]
    rw [hf, hq, if_neg (List.cons_ne_nil _ _)]
    unfold handleBlanksLoop
    rw [if_pos hcont, handleBlanksBody_blank trim decode handler P c _ ce acc hc hcs]
    generalize hh : handler acc (parseSolution trim decode c) = hr
    have hidx := indexOfAux_after_blank l rest (P.length + hr.1.length) hl hne hrest
    rw [hidx]
    have hP : (P ++ hr.1 ++ l).length = P.length + hr.1.length + l.length := by
      simp only [List.length_append]
    have hstate :
        (BlankScan.mk (P ++ hr.1 ++ (l ++ blanksText rest))
          (if rest = [] then -1 else ((P.length + hr.1.length + l.length : Nat) : Int))
          (some ((P.length : Int) + 1 + (hr.1.length : Int))) hr.2 : BlankScan σ)
        = BlankScan.mk ((P ++ hr.1 ++ l) ++ blanksText rest)
            (if rest = [] then -1 else (((P ++ hr.1 ++ l).length : Nat) : Int))
            (some ((P.length : Int) + 1 + (hr.1.length : Int))) hr.2 := by
      rw [hP]
      simp
    rw [hstate, ih (P ++ hr.1 ++ l) hr.2 _ hrest (by
      intro h
      have := Option.some.inj h
      omega)]
    simp [handledBlanks, hh]

theorem handledBlanks_recording (trim decode : JSString → JSString) (h : Solution → JSString)
    (blanks : List (JSString × JSString)) (log : List Solution) :
    handledBlanks trim decode (recording h) log blanks
      = (blanks.foldr (fun b t => h (parseSolution trim decode b.1) ++ b.2 ++ t) [],
          log ++ blanks.map (fun b => parseSolution trim decode b.1)) := by
  induction blanks generalizing log with
  | nil => simp [handledBlanks]
  | cons b rest ih =>
    obtain ⟨c, l⟩ := b
    simp [handledBlanks, recording, ih]

theorem handledBlanks_solutions (trim decode : JSString → JSString)
    (blanks : List (JSString × JSString)) (solutions : List JSString) :
    (handledBlanks trim decode
        (fun (solutions : List JSString) (solution : Solution) =>
          (blankPlaceholder, solutions ++ [solution.solutions.headD []])) solutions blanks).2
      = solutions ++ blanks.map (fun b => (parseSolution trim decode b.1).solutions.headD []) := by
  induction blanks generalizing solutions with
  | nil => simp [handledBlanks]
  | cons b rest ih =>
    obtain ⟨c, l⟩ := b
    simp only [handledBlanks, List.map_cons]
    rw [ih, List.append_assoc]
    rfl

theorem indexOf_first_blank (L0 : JSString) (blanks : List (JSString × JSString))
    (h0 : '*' ∉ L0) (hw : WellSeparated blanks) :
    indexOf (L0 ++ blanksText blanks) '*' 0
      = if blanks = [] then -1 else (L0.length : Int) := by
  rw [indexOf_zero]
  cases blanks with
  | nil =>
    simp only [blanksText, List.append_nil, if_true]
    exact indexOfAux_of_not_mem _ _ _ h0
  | cons b rest =>
    obtain ⟨c, l⟩ := b
    have e : L0 ++ blanksText ((c, l) :: rest) = L0 ++ '*' :: (c ++ '*' :: l ++ blanksText rest) := by
      simp [blanksText]
    rw [e, indexOfAux_append _ _ _ _ h0, if_neg (List.cons_ne_nil _ _)]
    simp

/-- C15: on a text `L₀ *c₁* L₁ … *cₙ* Lₙ` whose `Lᵢ` are asterisk-free, whose
`Lᵢ` between two blanks are non-empty and whose `cᵢ` are non-empty and
asterisk-free, `handleBlanks` (given `n + 1` tests of its loop condition or more)
runs the handler exactly `n` times, on `parseSolution(c₁)`, …,
`parseSolution(cₙ)` in that order, and returns `L₀ h(c₁) L₁ … h(cₙ) Lₙ`, whatever
strings the handler returns; so `getSolutionsFromQuestion` returns the first
alternatives of `c₁ … cₙ` joined with `[,]`. -/
theorem handleBlanks_well_separated {σ : Type} (trim decode : JSString → JSString)
    (handler : σ → Solution → JSString × σ) (acc : σ) (h : Solution → JSString)
    (L0 : JSString) (blanks : List (JSString × JSString)) (k : Nat)
    (h0 : '*' ∉ L0) (hw : WellSeparated blanks) :
    handleBlanks trim decode (blanks.length + 1 + k) (L0 ++ blanksText blanks) handler acc
      = some (L0 ++ (handledBlanks trim decode handler acc blanks).1,
          (handledBlanks trim decode handler acc blanks).2) ∧
    handleBlanks trim decode (blanks.length + 1 + k) (L0 ++ blanksText blanks) (recording h) []
      = some (L0 ++ blanks.foldr (fun b t => h (parseSolution trim decode b.1) ++ b.2 ++ t) [],
          blanks.map (fun b => parseSolution trim decode b.1)) ∧
    (blanks.map (fun b => parseSolution trim decode b.1)).length = blanks.length ∧
    getSolutionsFromQuestion trim decode (blanks.length + 1 + k) (L0 ++ blanksText blanks)
      = some (join "[,]".toList
          (blanks.map (fun b => (parseSolution trim decode b.1).solutions.headD []))) := by
  have main : ∀ {τ : Type} (hd : τ → Solution → JSString × τ) (a : τ),
      handleBlanks trim decode (blanks.length + 1 + k) (L0 ++ blanksText blanks) hd a
        = some (L0 ++ (handledBlanks trim decode hd a blanks).1,
            (handledBlanks trim decode hd a blanks).2) := by
    intro τ hd a
    unfold handleBlanks
    rw [indexOf_first_blank L0 blanks h0 hw]
    exact handleBlanksLoop_blanks trim decode hd blanks L0 a none k hw (by simp)
  refine ⟨main handler acc, ?_, List.length_map _ _, ?_⟩
  · rw [main, handledBlanks_recording]
    simp
  · unfold getSolutionsFromQuestion
    rw [main, Option.map_some', handledBlanks_solutions]
    simp

/-- Witness for C15: the text `The *cat/feline* sat, *x:tip*` with a handler that
returns `*`. -/
theorem handleBlanks_well_separated_witness :
    '*' ∉ "The ".toList ∧ WellSeparated exampleBlanks ∧
    handleBlanks trimWhiteSpace id (exampleBlanks.length + 1 + 0)
        ("The ".toList ++ blanksText exampleBlanks) (recording (fun _ => ['*'])) []
      = some ("The ".toList ++ exampleBlanks.foldr
            (fun b t => (fun _ => ['*']) (parseSolution trimWhiteSpace id b.1) ++ b.2 ++ t) [],
          exampleBlanks.map (fun b => parseSolution trimWhiteSpace id b.1)) ∧
    getSolutionsFromQuestion trimWhiteSpace id (exampleBlanks.length + 1 + 0)
        ("The ".toList ++ blanksText exampleBlanks)
      = some (join "[,]".toList
          (exampleBlanks.map (fun b => (parseSolution trimWhiteSpace id b.1).solutions.headD []))) ∧
    "The ".toList ++ blanksText exampleBlanks = "The *cat/feline* sat, *x:tip*".toList ∧
    join "[,]".toList
        (exampleBlanks.map (fun b => (parseSolution trimWhiteSpace id b.1).solutions.headD []))
      = "cat[,]x".toList :=
  ⟨by decide, by simp [WellSeparated, exampleBlanks],
    (handleBlanks_well_separated trimWhiteSpace id (recording (fun _ => ['*'])) []
      (fun _ => ['*']) "The ".toList exampleBlanks 0 (by decide)
      (by simp [WellSeparated, exampleBlanks])).2.1,
    (handleBlanks_well_separated trimWhiteSpace id (recording (fun _ => ['*'])) []
      (fun _ => ['*']) "The ".toList exampleBlanks 0 (by decide)
      (by simp [WellSeparated, exampleBlanks])).2.2.2,
    by decide, by decide⟩

/-! ## Termination of the cloze scanner -/

theorem indexOfAux_bounds (c : Char) (t : List Char) (i : Nat) :
    indexOfAux c t i = -1 ∨
      ((i : Int) ≤ indexOfAux c t i ∧ indexOfAux c t i < (i : Int) + (t.length : Int)) := by
  induction t generalizing i with
  | nil => left; rfl
  | cons x xs ih =>
    by_cases hx : x = c
    · right
      simp only [indexOfAux, hx, if_true, List.length_cons]
      constructor <;> omega
    · simp only [indexOfAux, hx, if_false, List.length_cons]
      rcases ih (i + 1) with h | ⟨h1, h2⟩
      · left; exact h
      · right
        constructor
        · push_cast at h1; omega
        · push_cast at h2 ⊢; omega

theorem indexOf_bounds (str : JSString) (c : Char) (p : Int) (hp : 0 ≤ p) :
    indexOf str c p = -1 ∨ (p ≤ indexOf str c p ∧ indexOf str c p < (str.length : Int)) := by
  unfold indexOf
  by_cases hl : p.toNat ≤ str.length
  · rcases indexOfAux_bounds c (str.drop p.toNat) p.toNat with h | ⟨h1, h2⟩
    · left; exact h
    · right
      rw [List.length_drop] at h2
      constructor <;> omega
  · left
    rw [List.drop_eq_nil_of_le (by omega)]
    rfl

theorem slice_upto_length (str : JSString) (q : Int) (h0 : 0 ≤ q) (h1 : q ≤ (str.length : Int)) :
    ((slice str 0 (some q)).length : Int) = q := by
  have hq : q = ((q.toNat : Nat) : Int) := by omega
  rw [slice_upto_eq str q q.toNat hq (by omega), List.length_take]
  omega

theorem slice_from_length (str : JSString) (p : Int) (h0 : 0 ≤ p)
    (h1 : p ≤ (str.length : Int)) :
    ((slice str p none).length : Int) = (str.length : Int) - p := by
  have hp : p = ((p.toNat : Nat) : Int) := by omega
  rw [slice_from_eq str p p.toNat hp (by omega), List.length_drop]
  omega

/-- One pass of the loop of `handleBlanks`, started at a delimiter: either the
loop exits after it, or it is at a delimiter again and both the distance from the
search position to the end of the question and the distance from `clozeStart` to
the end of the question have decreased. -/
theorem handleBlanksBody_decreases {σ : Type} (trim decode : JSString → JSString)
    (handler : σ → Solution → JSString × σ) (s : BlankScan σ) (hd : s.AtDelimiter) :
    (handleBlanksBody trim decode handler s).continues = false ∨
    ((handleBlanksBody trim decode handler s).AtDelimiter ∧
      ((handleBlanksBody trim decode handler s).question.length : Int)
          - (handleBlanksBody trim decode handler s).searchPosition
        < (s.question.length : Int) - s.searchPosition ∧
      ((handleBlanksBody trim decode handler s).question.length : Int)
          - (handleBlanksBody trim decode handler s).clozeStart
        < (s.question.length : Int) - s.clozeStart) := by
  obtain ⟨hs0, hs1, hs2⟩ := hd
  have hcs0 : 0 ≤ s.clozeStart := le_trans hs0 hs1
  simp only [BlankScan.searchPosition] at hs0 hs1
  unfold handleBlanksBody
  dsimp only
  rcases indexOf_bounds s.question '*' (s.clozeStart + 1) (by omega) with he | ⟨he1, he2⟩
  · left
    rw [if_pos he]
    simp [BlankScan.continues, he]
  · have hne : ¬ indexOf s.question '*' (s.clozeStart + 1) = -1 := by omega
    rw [if_neg hne]
    generalize indexOf s.question '*' (s.clozeStart + 1) = e at he1 he2 hne
    by_cases hcontent : (substring s.question (s.clozeStart + 1) e).length ≠ 0
    · rw [if_pos hcontent]
      generalize handler s.acc (parseSolution trim decode
        (substring s.question (s.clozeStart + 1) e)) = hr
      have hA := slice_upto_length s.question (s.clozeStart + 1 - 1) (by omega) (by omega)
      have hB := slice_from_length s.question (e + 1) (by omega) (by omega)
      have hlen : ((slice s.question 0 (some (s.clozeStart + 1 - 1)) ++ hr.1
          ++ slice s.question (e + 1) none).length : Int)
          = s.clozeStart + (hr.1.length : Int) + ((s.question.length : Int) - e - 1) := by
        rw [List.length_append, List.length_append]
        push_cast
        omega
      rcases indexOf_bounds (slice s.question 0 (some (s.clozeStart + 1 - 1)) ++ hr.1
          ++ slice s.question (e + 1) none) '*'
          (e + 1 - (e + 1 - (s.clozeStart + 1) - (hr.1.length : Int))) (by omega)
        with hn | ⟨hn1, hn2⟩
      · left
        simp only [BlankScan.continues]
        rw [hn]
        rfl
      · right
        simp only [BlankScan.AtDelimiter, BlankScan.searchPosition, Option.getD_some]
        refine ⟨⟨by omega, hn1, hn2⟩, ?_, ?_⟩
        · rw [hlen]; omega
        · rw [hlen]; omega
    · rw [if_neg hcontent]
      have hA := slice_upto_length s.question (s.clozeStart + 1 + 1 - 1) (by omega) (by omega)
      have hB := slice_from_length s.question e (by omega) (by omega)
      have hlen : ((slice s.question 0 (some (s.clozeStart + 1 + 1 - 1)) ++ []
          ++ slice s.question e none).length : Int)
          = s.clozeStart + 1 + ((s.question.length : Int) - e) := by
        rw [List.length_append, List.length_append]
        push_cast
        simp only [List.length_nil]
        omega
      rcases indexOf_bounds (slice s.question 0 (some (s.clozeStart + 1 + 1 - 1)) ++ []
          ++ slice s.question e none) '*'
          (e - (e - (s.clozeStart + 1 + 1) - (([] : JSString).length : Int))) (by
            simp only [List.length_nil]; omega)
        with hn | ⟨hn1, hn2⟩
      · left
        simp only [BlankScan.continues]
        rw [hn]
        rfl
      · right
        simp only [BlankScan.AtDelimiter, BlankScan.searchPosition, Option.getD_some]
        refine ⟨⟨by simp only [List.length_nil]; omega, hn1, hn2⟩, ?_, ?_⟩
        · rw [hlen]; simp only [List.length_nil]; omega
        · rw [hlen]; omega

theorem handleBlanksLoop_exit {σ : Type} (trim decode : JSString → JSString)
    (handler : σ → Solution → JSString × σ) (s : BlankScan σ) (fuel : Nat)
    (h : s.continues = false) :
    handleBlanksLoop trim decode handler (fuel + 1) s = some (s.question, s.acc) := by
  simp [handleBlanksLoop, h]

/-- The loop of `handleBlanks` returns once the fuel exceeds the distance from
`clozeStart` to the end of the question. -/
theorem handleBlanksLoop_terminates {σ : Type} (trim decode : JSString → JSString)
    (handler : σ → Solution → JSString × σ) (n : Nat) :
    ∀ s : BlankScan σ,
      (s.continues = true →
        s.AtDelimiter ∧ (s.question.length : Int) - s.clozeStart ≤ (n : Int)) →
      ∃ result, ∀ k, handleBlanksLoop trim decode handler (n + 1 + k) s = some result := by
  induction n with
  | zero =>
    intro s hs
    have hc : s.continues = false := by
      cases hcont : s.continues with
      | false => rfl
      | true =>
        obtain ⟨⟨_, _, h2⟩, h3⟩ := hs hcont
        omega
    refine ⟨(s.question, s.acc), fun k => ?_⟩
    have hf : 0 + 1 + k = k + 1 := by omega
    rw [hf]
    exact handleBlanksLoop_exit trim decode handler s k hc
  | succ n ih =>
    intro s hs
    cases hcont : s.continues with
    | false =>
      refine ⟨(s.question, s.acc), fun k => ?_⟩
      have hf : n + 1 + 1 + k = (n + 1 + k) + 1 := by omega
      rw [hf]
      exact handleBlanksLoop_exit trim decode handler s _ hcont
    | true =>
      obtain ⟨hd, hm⟩ := hs hcont
      have hnext : (handleBlanksBody trim decode handler s).continues = true →
          (handleBlanksBody trim decode handler s).AtDelimiter ∧
          ((handleBlanksBody trim decode handler s).question.length : Int)
            - (handleBlanksBody trim decode handler s).clozeStart ≤ (n : Int) := by
        intro hc'
        rcases handleBlanksBody_decreases trim decode handler s hd with h | ⟨h1, _, h3⟩
        · rw [h] at hc'; cases hc'
        · refine ⟨h1, ?_⟩
          push_cast at hm
          omega
      obtain ⟨result, hres⟩ := ih (handleBlanksBody trim decode handler s) hnext
      refine ⟨result, fun k => ?_⟩
      have hf : n + 1 + 1 + k = (n + 1 + k) + 1 := by omega
      rw [hf]
      unfold handleBlanksLoop
      rw [if_pos hcont]
      exact hres k

/-- C17: the scanning loop of `handleBlanks` terminates, whatever the question and
whatever strings the handler returns: with `question.length + 1` tests of the loop
condition or more, `handleBlanks` returns a result.  The loop starts at a
delimiter if it starts at all, and after each pass started at a delimiter either
the loop exits, or it is at a delimiter again and the search position `clozeEnd`
is strictly closer to the end of the (possibly grown) question.  For instance a
handler that returns `*x*` turns `*a*b*c*` into `*x*b*x*`. -/
theorem handleBlanks_terminates {σ : Type} (trim decode : JSString → JSString)
    (handler : σ → Solution → JSString × σ) (question : JSString) (acc : σ) :
    (∃ result, ∀ k,
      handleBlanks trim decode (question.length + 1 + k) question handler acc = some result) ∧
    (BlankScan.continues (BlankScan.mk question (indexOf question '*' 0) none acc) = true →
      BlankScan.AtDelimiter (BlankScan.mk question (indexOf question '*' 0) none acc)) ∧
    (∀ s : BlankScan σ, s.AtDelimiter →
      (handleBlanksBody trim decode handler s).continues = false ∨
      ((handleBlanksBody trim decode handler s).AtDelimiter ∧
        ((handleBlanksBody trim decode handler s).question.length : Int)
            - (handleBlanksBody trim decode handler s).searchPosition
          < (s.question.length : Int) - s.searchPosition)) ∧
    handleBlanks trim decode ("*a*b*c*".toList.length + 1 + 0) "*a*b*c*".toList
        (fun (_ : Unit) (_ : Solution) => ("*x*".toList, ())) ()
      = some ("*x*b*x*".toList, ()) := by
  have hinit :
      BlankScan.continues (BlankScan.mk question (indexOf question '*' 0) none acc) = true →
      BlankScan.AtDelimiter (BlankScan.mk question (indexOf question '*' 0) none acc) := by
    intro hc
    have hne : indexOf question '*' 0 ≠ -1 := by
      intro h
      simp [BlankScan.continues, h] at hc
    rcases indexOf_bounds question '*' 0 (le_refl 0) with h | ⟨h1, h2⟩
    · exact absurd h hne
    · exact ⟨le_refl 0, h1, h2⟩
  refine ⟨?_, hinit, ?_, rfl⟩
  · apply handleBlanksLoop_terminates trim decode handler question.length
    intro hc
    refine ⟨hinit hc, ?_⟩
    have := (hinit hc).2.1
    simp only [BlankScan.searchPosition, Option.getD_none] at this
    show (question.length : Int) - indexOf question '*' 0 ≤ (question.length : Int)
    omega
  · intro s hd
    rcases handleBlanksBody_decreases trim decode handler s hd with h | ⟨h1, h2, _⟩
    · left; exact h
    · right; exact ⟨h1, h2⟩

/-! ## Supporting facts on the shuffle and on `addTaskTo` -/

theorem perm_cons_eraseIdx {α : Type} (l : List α) (i : Nat) (d : α) (h : l[i]? = some d) :
    l.Perm (d :: l.eraseIdx i) := by
  induction l generalizing i with
  | nil => simp at h
  | cons x xs ih =>
    cases i with
    | zero =>
      simp only [List.getElem?_cons_zero, Option.some.injEq] at h
      subst h
      simp
    | succ i =>
      simp only [List.getElem?_cons_succ] at h
      simp only [List.eraseIdx_cons_succ]
      exact ((ih i h).cons x).trans (List.Perm.swap d x _)

theorem arrayGet_some {α : Type} (l : List α) (v : IndexValue) (d : α)
    (h : arrayGet l v = some d) : l[v.toIndex]? = some d := by
  unfold arrayGet at h
  unfold IndexValue.toIndex
  cases hp : v.propertyIndex with
  | none => rw [hp] at h; cases h
  | some k => rw [hp] at h; exact h

/-- Whenever the loop of `addDraggablesRandomly` completes without throwing, what
it has appended is a rearrangement of what was appended before and of
`tempArray`. -/
theorem addDraggablesRandomlyLoop_perm (random : Nat → Decimal) (fuel : Nat) :
    ∀ (call : Nat) (tempArray appended result : List Nat),
      addDraggablesRandomlyLoop random fuel call tempArray appended = some (Except.ok result) →
      result.Perm (appended ++ tempArray) := by
  induction fuel with
  | zero => intro call tempArray appended result h; simp [addDraggablesRandomlyLoop] at h
  | succ fuel ih =>
    intro call tempArray appended result h
    unfold addDraggablesRandomlyLoop at h
    by_cases hl : tempArray.length ≥ 1
    · rw [if_pos hl] at h
      dsimp only at h
      cases hg : arrayGet tempArray
          (parseInt (numberToString ((random call).times tempArray.length))) with
      | none => rw [hg] at h; simp at h
      | some d =>
        rw [hg] at h
        have hp := ih _ _ _ _ h
        have hd := perm_cons_eraseIdx tempArray _ d (arrayGet_some _ _ _ hg)
        refine hp.trans ?_
        rw [List.append_assoc]
        exact List.Perm.append_left appended (by simpa using hd.symm)
    · rw [if_neg hl] at h
      have he : tempArray = [] := List.length_eq_zero.1 (by omega)
      have hr : appended = result := by simpa using h
      rw [he, ← hr]
      simp

/-- The loop of `addDraggablesRandomly` ends, by completing or by throwing, within
`tempArray.length + 1` tests of its condition. -/
theorem addDraggablesRandomlyLoop_ends (random : Nat → Decimal) (n : Nat) :
    ∀ (tempArray : List Nat), tempArray.length = n → ∀ (call : Nat) (appended : List Nat)
      (k : Nat),
      addDraggablesRandomlyLoop random (n + 1 + k) call tempArray appended ≠ none := by
  induction n with
  | zero =>
    intro tempArray hn call appended k
    have hf : 0 + 1 + k = k + 1 := by omega
    have he : tempArray = [] := List.length_eq_zero.1 hn
    rw [hf, he]
    simp [addDraggablesRandomlyLoop]
  | succ n ih =>
    intro tempArray hn call appended k
    have hf : n + 1 + 1 + k = (n + 1 + k) + 1 := by omega
    rw [hf]
    unfold addDraggablesRandomlyLoop
    rw [if_pos (by omega)]
    dsimp only
    cases hg : arrayGet tempArray
        (parseInt (numberToString ((random call).times tempArray.length))) with
    | none => simp
    | some d =>
      have hlt : (parseInt (numberToString ((random call).times tempArray.length))).toIndex
          < tempArray.length := by
        have := arrayGet_some _ _ _ hg
        by_contra hc
        rw [List.getElem?_eq_none (by omega)] at this
        cases this
      have hlen : (tempArray.eraseIdx
          (parseInt (numberToString ((random call).times tempArray.length))).toIndex).length
          = n := by
        rw [List.length_eraseIdx]
        simp only [hlt, if_true]
        omega
      exact ih _ hlen _ _ k

theorem split_head (sep : Char) (t : JSString) :
    (split sep t).headD [] = t.takeWhile (fun x => x != sep) := by
  induction t with
  | nil => rfl
  | cons x xs ih =>
    unfold split
    by_cases hx : x = sep
    · simp [hx]
    · rw [if_neg hx]
      cases h : split sep xs with
      | nil => exact absurd h (split_ne_nil sep xs)
      | cons q qs =>
        rw [h] at ih
        simp only [List.headD_cons] at ih
        simp [List.takeWhile_cons, hx, ih]

theorem split_append_sep (sep : Char) (a b : JSString) (h : sep ∉ a) :
    split sep (a ++ sep :: b) = a :: split sep b := by
  induction a with
  | nil => simp [split]
  | cons x xs ih =>
    have hx : x ≠ sep := fun e => h (by simp [e])
    have hxs : sep ∉ xs := fun e => h (by simp [e])
    have e : split sep (x :: (xs ++ sep :: b))
        = (match split sep (xs ++ sep :: b) with
          | [] => [[x]]
          | piece :: pieces => (x :: piece) :: pieces) := by
      rw [split, if_neg hx]
    rw [List.cons_append, e, ih hxs]

theorem split_of_not_mem (sep : Char) (a : JSString) (h : sep ∉ a) : split sep a = [a] := by
  induction a with
  | nil => rfl
  | cons x xs ih =>
    have hx : x ≠ sep := fun e => h (by simp [e])
    have hxs : sep ∉ xs := fun e => h (by simp [e])
    simp only [split, if_neg hx, ih hxs]

theorem cleanAsterisk_blank (content : JSString) :
    cleanAsterisk ('*' :: content ++ ['*']) = content := by
  have h1 : startsWith ['*'] ('*' :: content ++ ['*']) = true := by
    simp [startsWith, substr, relativeIndex]
  have h2 : slice ('*' :: content ++ ['*']) 1 none = content ++ ['*'] := by
    rw [slice_from_eq ('*' :: content ++ ['*']) 1 1 (by simp) (by simp)]
    rfl
  have h3 : endsWith ['*'] (content ++ ['*']) = true := by
    have hn : ¬ (((content ++ ['*']).length : Int) + -1 < 0) := by
      simp only [List.length_append, List.length_singleton]; push_cast; omega
    have ht : (((content ++ ['*']).length : Int) + -1).toNat = content.length := by
      simp only [List.length_append, List.length_singleton]; push_cast; omega
    simp [endsWith, substr, relativeIndex, ht]
  have h4 : slice (content ++ ['*']) 0 (some (-1)) = content := by
    have ht : (((content ++ ['*']).length : Int) + -1).toNat = content.length := by
      simp only [List.length_append, List.length_singleton]; push_cast; omega
    simp [slice, relativeIndex, ht]
  unfold cleanAsterisk
  simp only [h1, if_true, h2, h3, h4]

/-- What `addTaskTo` hands on for a blank part `*content*`: the answer is the text
before the first `:`, as in `parseSolution`, but the tip is only the text between
the first `:` and the second one. -/
theorem addTaskToBlank_eq :
    (∀ a b : JSString, ':' ∉ a →
      addTaskToBlank ('*' :: (a ++ ':' :: b) ++ ['*'])
        = (a, some (b.takeWhile (fun x => x != ':')))) ∧
    (∀ t : JSString, ':' ∉ t → addTaskToBlank ('*' :: t ++ ['*']) = (t, none)) := by
  constructor
  · intro a b h
    unfold addTaskToBlank
    rw [cleanAsterisk_blank]
    dsimp only
    rw [split_append_sep _ _ _ h]
    have hb := split_head ':' b
    cases hs : split ':' b with
    | nil => exact absurd hs (split_ne_nil ':' b)
    | cons q qs =>
      rw [hs] at hb
      simp only [List.headD_cons] at hb
      simp [hb]
  · intro t h
    unfold addTaskToBlank
    rw [cleanAsterisk_blank]
    dsimp only
    rw [split_of_not_mem _ _ h]
    simp

end H5P
